import Mathlib

/-!
Verification development for the MagicWound card game (Python sources
`main.py` and `main_gui.py`).  Python strings are embedded as `List Char`,
Python byte strings as `List Nat` (each entry `< 256`), Python ints as `Int`
(`Nat` where the source value is a length or index), and fallible code as
`Option`.  Every definition is translated from the corresponding Python
function; the file first develops the deck-code codec (UTF-8, base64, CRC32,
string splitting) and then the battle-state operations of both engine
variants.
-/

namespace MagicWound

/-- Python `str` embedded as a list of unicode characters. -/
abbrev Str := List Char

/-- Model of `Element(IntEnum)` from `main.py` / `main_gui.py`. -/
inductive Element where
  | physical | light | dark | water | fire | earth | wind
deriving DecidableEq, Repr

/-- Model of `Rarity(IntEnum)`. -/
inductive Rarity where
  | common | uncommon | rare | mythic | funny
deriving DecidableEq, Repr

/-- Model of `DeckType(IntEnum)`: `STANDARD = 1`, `CASUAL = 2`. -/
inductive DeckType where
  | standard | casual
deriving DecidableEq, Repr

/-- Model of `int(self.deck_type)`: the numeric value of the `DeckType` enum. -/
def DeckType.toInt : DeckType → Int
  | .standard => 1
  | .casual => 2

/-- Model of `DeckType(n)`: constructing the enum from an int raises `ValueError`
for a value outside `{1, 2}`, modelled as `none`. -/
def deckTypeOfInt (n : Int) : Option DeckType :=
  if n = 1 then some .standard
  else if n = 2 then some .casual
  else none

/-! ### Python string splitting and joining -/

/-- One step of `splitOnChar`: prepend character `c` to a split result. -/
def splitStep (sep c : Char) : List Str → List Str
  | [] => [[c]]
  | p :: ps => if c = sep then [] :: p :: ps else (c :: p) :: ps

/-- Python `s.split(sep)` for a one-character separator: splits at every
occurrence, keeping empty parts (`''.split(';') == ['']`). -/
def splitOnChar (sep : Char) : Str → List Str
  | [] => [[]]
  | c :: cs => splitStep sep c (splitOnChar sep cs)

/-- Python `sep.join(parts)`. -/
def joinWith (sep : Str) : List Str → Str
  | [] => []
  | [p] => p
  | p :: ps => p ++ sep ++ joinWith sep ps

theorem splitOnChar_ne_nil (sep : Char) (s : Str) : splitOnChar sep s ≠ [] := by
  cases s with
  | nil => simp [splitOnChar]
  | cons c cs =>
    simp only [splitOnChar]
    rcases h : splitOnChar sep cs with _ | ⟨p, ps⟩
    · simp [splitStep]
    · simp only [splitStep]
      split <;> simp

/-- Splitting a separator-free string yields the single part. -/
theorem splitOnChar_of_not_mem {sep : Char} {s : Str} (h : sep ∉ s) :
    splitOnChar sep s = [s] := by
  induction s with
  | nil => rfl
  | cons c cs ih =>
    simp only [List.mem_cons, not_or] at h
    simp only [splitOnChar, ih h.2, splitStep, if_neg (Ne.symm h.1)]

/-- Peeling one separator off a split: `split (a ++ sep :: r) = a :: split r`
when `a` is separator-free. -/
theorem splitOnChar_append_sep {sep : Char} {a : Str} (r : Str) (h : sep ∉ a) :
    splitOnChar sep (a ++ sep :: r) = a :: splitOnChar sep r := by
  induction a with
  | nil =>
    simp only [List.nil_append, splitOnChar]
    rcases hr : splitOnChar sep r with _ | ⟨p, ps⟩
    · exact absurd hr (splitOnChar_ne_nil sep r)
    · simp [splitStep]
  | cons c cs ih =>
    simp only [List.mem_cons, not_or] at h
    have hstep : splitOnChar sep ((c :: cs) ++ sep :: r) =
        splitStep sep c (splitOnChar sep (cs ++ sep :: r)) := rfl
    rw [hstep, ih h.2]
    simp only [splitStep, if_neg (Ne.symm h.1)]

/-- Splitting a join of separator-free parts recovers the parts. -/
theorem splitOnChar_joinWith {sep : Char} {parts : List Str}
    (hne : parts ≠ []) (h : ∀ p ∈ parts, sep ∉ p) :
    splitOnChar sep (joinWith [sep] parts) = parts := by
  induction parts with
  | nil => exact absurd rfl hne
  | cons p ps ih =>
    cases ps with
    | nil =>
      simpa [joinWith] using splitOnChar_of_not_mem (h p (by simp))
    | cons q qs =>
      have hp : sep ∉ p := h p (by simp)
      have hrest : ∀ x ∈ q :: qs, sep ∉ x := fun x hx => h x (by simp [hx])
      calc splitOnChar sep (p ++ [sep] ++ joinWith [sep] (q :: qs))
          = splitOnChar sep (p ++ sep :: joinWith [sep] (q :: qs)) := by
            simp
        _ = p :: splitOnChar sep (joinWith [sep] (q :: qs)) :=
            splitOnChar_append_sep _ hp
        _ = p :: q :: qs := by rw [ih (by simp) hrest]

/-! ### Python decimal rendering and parsing of integers -/

/-- Decimal digit character for `d < 10`. -/
def digitChar (d : Nat) : Char := Char.ofNat (48 + d)

/-- Little-endian decimal digits of `n` (fuelled so that the definition is
structurally recursive and kernel-reducible). -/
def natDigitsRev (fuel n : Nat) : List Nat :=
  match fuel with
  | 0 => []
  | fuel + 1 => if n < 10 then [n] else n % 10 :: natDigitsRev fuel (n / 10)

/-- Python `str(n)` for a natural number. -/
def natToStr (n : Nat) : Str := ((natDigitsRev (n + 1) n).reverse).map digitChar

/-- Python `str(k)` for an int (prefixes `-` for negatives). -/
def intToStr (k : Int) : Str :=
  if k < 0 then '-' :: natToStr (-k).toNat else natToStr k.toNat

/-- Digit-sequence parser: accumulates `acc * 10 + digit`, fails on a
non-digit character. -/
def parseDigitsAux : Str → Nat → Option Nat
  | [], acc => some acc
  | c :: rest, acc =>
    if '0' ≤ c ∧ c ≤ '9' then parseDigitsAux rest (acc * 10 + (c.toNat - 48))
    else none

/-- Parses a non-empty all-digit string. -/
def parseDigits (s : Str) : Option Nat :=
  if s = [] then none else parseDigitsAux s 0

/-- Python `int(s)` restricted to the canonical forms `str` produces:
an optional sign followed by decimal digits. -/
def pyInt : Str → Option Int
  | [] => none
  | c :: rest =>
    if c = '-' then (parseDigits rest).map (fun (n : Nat) => -(n : Int))
    else if c = '+' then (parseDigits rest).map (fun (n : Nat) => (n : Int))
    else (parseDigits (c :: rest)).map (fun (n : Nat) => (n : Int))

theorem digitChar_toNat : ∀ d, d < 10 → (digitChar d).toNat = 48 + d := by decide

theorem digitChar_bounds : ∀ d, d < 10 → '0' ≤ digitChar d ∧ digitChar d ≤ '9' := by
  decide

theorem natDigitsRev_lt_ten : ∀ fuel n, ∀ d ∈ natDigitsRev fuel n, d < 10 := by
  intro fuel
  induction fuel with
  | zero => intro n d hd; simp [natDigitsRev] at hd
  | succ f ih =>
    intro n d hd
    simp only [natDigitsRev] at hd
    split at hd
    · simp at hd; omega
    · rcases List.mem_cons.mp hd with h | h
      · omega
      · exact ih _ d h

/-- Value of a little-endian digit list. -/
def digitsVal : List Nat → Nat
  | [] => 0
  | d :: ds => d + 10 * digitsVal ds

theorem digitsVal_natDigitsRev : ∀ fuel n, n < 10 ^ fuel →
    digitsVal (natDigitsRev fuel n) = n := by
  intro fuel
  induction fuel with
  | zero => intro n h; simp at h; simp [natDigitsRev, digitsVal, h]
  | succ f ih =>
    intro n h
    simp only [natDigitsRev]
    split
    · simp [digitsVal]
    · have hdiv : n / 10 < 10 ^ f := by
        rw [Nat.div_lt_iff_lt_mul (by norm_num)]
        calc n < 10 ^ (f + 1) := h
          _ = 10 ^ f * 10 := by ring
      simp only [digitsVal, ih _ hdiv]
      omega

theorem parseDigitsAux_map_digitChar : ∀ (ds : List Nat) (a : Nat),
    (∀ d ∈ ds, d < 10) →
    parseDigitsAux (ds.map digitChar) a =
      some (ds.foldl (fun acc d => acc * 10 + d) a) := by
  intro ds
  induction ds with
  | nil => intro a _; rfl
  | cons d ds ih =>
    intro a h
    have hd : d < 10 := h d (by simp)
    simp only [List.map_cons, parseDigitsAux, List.foldl_cons,
      if_pos (digitChar_bounds d hd), digitChar_toNat d hd]
    rw [ih _ (fun x hx => h x (by simp [hx]))]
    congr 2
    omega

theorem foldl_reverse_digitsVal (l : List Nat) :
    l.reverse.foldl (fun acc d => acc * 10 + d) 0 = digitsVal l := by
  induction l with
  | nil => rfl
  | cons d ds ih =>
    simp only [List.reverse_cons, List.foldl_append, List.foldl_cons,
      List.foldl_nil, digitsVal, ih]
    omega

theorem natDigitsRev_ne_nil (fuel n : Nat) (h : 0 < fuel) :
    natDigitsRev fuel n ≠ [] := by
  cases fuel with
  | zero => omega
  | succ f => simp only [natDigitsRev]; split <;> simp

/-- Round trip of natural-number rendering and digit parsing. -/
theorem parseDigits_natToStr (n : Nat) : parseDigits (natToStr n) = some n := by
  have hlt : n < 10 ^ (n + 1) :=
    lt_of_lt_of_le (Nat.lt_two_pow n)
      (le_trans (Nat.pow_le_pow_left (by norm_num) n)
        (Nat.pow_le_pow_right (by norm_num) (by omega)))
  have hds := natDigitsRev_lt_ten (n + 1) n
  have hne : (natDigitsRev (n + 1) n).reverse.map digitChar ≠ [] := by
    simp [natDigitsRev_ne_nil (n + 1) n (by omega)]
  unfold natToStr parseDigits
  rw [if_neg hne]
  rw [parseDigitsAux_map_digitChar _ 0 (by
    intro d hd
    exact hds d (List.mem_reverse.mp hd))]
  rw [foldl_reverse_digitsVal, digitsVal_natDigitsRev _ _ hlt]

theorem natToStr_digits (n : Nat) : ∀ c ∈ natToStr n, '0' ≤ c ∧ c ≤ '9' := by
  intro c hc
  unfold natToStr at hc
  rcases List.mem_map.mp hc with ⟨d, hd, rfl⟩
  exact digitChar_bounds d (natDigitsRev_lt_ten _ _ d (List.mem_reverse.mp hd))

theorem natToStr_ne_nil (n : Nat) : natToStr n ≠ [] := by
  unfold natToStr
  simp [natDigitsRev_ne_nil (n + 1) n (by omega)]

/-- Round trip of Python `str`/`int` on integers. -/
theorem pyInt_intToStr (k : Int) : pyInt (intToStr k) = some k := by
  unfold intToStr
  split
  · rename_i hk
    have h1 : (((-k).toNat : Nat) : Int) = -k := Int.toNat_of_nonneg (by omega)
    simp [pyInt, parseDigits_natToStr, h1]
  · rename_i hk
    have h1 : ((k.toNat : Nat) : Int) = k := Int.toNat_of_nonneg (by omega)
    rcases h : natToStr k.toNat with _ | ⟨c, cs⟩
    · exact absurd h (natToStr_ne_nil k.toNat)
    · have hc : '0' ≤ c ∧ c ≤ '9' := natToStr_digits k.toNat c (by simp [h])
      have h2 : ¬(c = '-') := by rintro rfl; revert hc; decide
      have h3 : ¬(c = '+') := by rintro rfl; revert hc; decide
      simp only [pyInt, if_neg h2, if_neg h3, ← h, parseDigits_natToStr,
        Option.map_some', h1]

/-! ### UTF-8 (Python `str.encode('utf-8')` / `bytes.decode('utf-8')`) -/

theorem char_toNat_lt (c : Char) : c.toNat < 0x110000 := by
  have h := c.valid
  have he : c.toNat = c.val.toNat := rfl
  simp only [UInt32.isValidChar, Nat.isValidChar] at h
  omega

theorem char_not_surrogate (c : Char) : c.toNat < 0xd800 ∨ 0xdfff < c.toNat := by
  have h := c.valid
  have he : c.toNat = c.val.toNat := rfl
  simp only [UInt32.isValidChar, Nat.isValidChar] at h
  omega

/-- UTF-8 encoding of a single code point (1–4 bytes). -/
def utf8EncodeChar (c : Char) : List Nat :=
  if c.toNat < 0x80 then [c.toNat]
  else if c.toNat < 0x800 then [0xc0 + c.toNat / 64, 0x80 + c.toNat % 64]
  else if c.toNat < 0x10000 then
    [0xe0 + c.toNat / 4096, 0x80 + c.toNat / 64 % 64, 0x80 + c.toNat % 64]
  else
    [0xf0 + c.toNat / 262144, 0x80 + c.toNat / 4096 % 64,
      0x80 + c.toNat / 64 % 64, 0x80 + c.toNat % 64]

/-- Python `s.encode('utf-8')` as a byte list. -/
def utf8Encode (s : Str) : List Nat := s.flatMap utf8EncodeChar

/-- Strict UTF-8 decoding loop.  The accumulator `some (need, acc, lo)` means
`need` continuation bytes are still expected, `acc` is the value accumulated so
far and `lo` the smallest code point the current sequence is allowed to
produce (rejecting overlong forms, as CPython does). -/
def utf8DecodeAux : List Nat → Option (Nat × Nat × Nat) → Option Str
  | [], some _ => none
  | [], none => some []
  | b :: bs, none =>
    if b < 0x80 then (utf8DecodeAux bs none).map (Char.ofNat b :: ·)
    else if b < 0xc0 then none
    else if b < 0xe0 then utf8DecodeAux bs (some (1, b - 0xc0, 0x80))
    else if b < 0xf0 then utf8DecodeAux bs (some (2, b - 0xe0, 0x800))
    else if b < 0xf8 then utf8DecodeAux bs (some (3, b - 0xf0, 0x10000))
    else none
  | b :: bs, some (need, acc, lo) =>
    if 0x80 ≤ b ∧ b < 0xc0 then
      let acc' := acc * 64 + (b - 0x80)
      if need ≤ 1 then
        if lo ≤ acc' ∧ acc' < 0x110000 ∧ (acc' < 0xd800 ∨ 0xdfff < acc') then
          (utf8DecodeAux bs none).map (Char.ofNat acc' :: ·)
        else none
      else utf8DecodeAux bs (some (need - 1, acc', lo))
    else none

/-- Python `bytes.decode('utf-8')`: `none` models a raised `UnicodeDecodeError`. -/
def utf8Decode (bs : List Nat) : Option Str := utf8DecodeAux bs none

theorem utf8EncodeChar_lt_256 (c : Char) : ∀ b ∈ utf8EncodeChar c, b < 256 := by
  intro b hb
  have h := char_toNat_lt c
  unfold utf8EncodeChar at hb
  split at hb <;> [skip; split at hb] <;> [skip; skip; split at hb] <;>
    simp at hb <;> omega

/-- Decoding the encoding of one character consumes exactly its bytes. -/
theorem utf8DecodeAux_encodeChar (c : Char) (rest : List Nat) :
    utf8DecodeAux (utf8EncodeChar c ++ rest) none =
      (utf8DecodeAux rest none).map (c :: ·) := by
  have hlt := char_toNat_lt c
  have hsur := char_not_surrogate c
  unfold utf8EncodeChar
  split
  · rename_i h1
    simp only [List.cons_append, List.nil_append, utf8DecodeAux, if_pos h1,
      Char.ofNat_toNat]
    simp
  · rename_i h1
    split
    · rename_i h2
      have e1 : ¬(0xc0 + c.toNat / 64 < 0x80) := by omega
      have e2 : ¬(0xc0 + c.toNat / 64 < 0xc0) := by omega
      have e3 : 0xc0 + c.toNat / 64 < 0xe0 := by omega
      simp only [List.cons_append, List.nil_append, utf8DecodeAux,
        if_neg e1, if_neg e2, if_pos e3]
      have e4 : (0x80 ≤ 0x80 + c.toNat % 64 ∧ 0x80 + c.toNat % 64 < 0xc0) := by omega
      simp only [utf8DecodeAux, if_pos e4]
      have e5 : (0xc0 + c.toNat / 64 - 0xc0) * 64 + (0x80 + c.toNat % 64 - 0x80) =
          c.toNat := by omega
      simp only [le_refl, if_pos, e5]
      have e6 : 0x80 ≤ c.toNat ∧ c.toNat < 0x110000 ∧
          (c.toNat < 0xd800 ∨ 0xdfff < c.toNat) := by omega
      simp only [if_pos e6, Char.ofNat_toNat]
      simp
    · rename_i h2
      split
      · rename_i h3
        have e1 : ¬(0xe0 + c.toNat / 4096 < 0x80) := by omega
        have e2 : ¬(0xe0 + c.toNat / 4096 < 0xc0) := by omega
        have e3 : ¬(0xe0 + c.toNat / 4096 < 0xe0) := by omega
        have e4 : 0xe0 + c.toNat / 4096 < 0xf0 := by omega
        simp only [List.cons_append, List.nil_append, utf8DecodeAux,
          if_neg e1, if_neg e2, if_neg e3, if_pos e4]
        have e5 : (0x80 ≤ 0x80 + c.toNat / 64 % 64 ∧ 0x80 + c.toNat / 64 % 64 < 0xc0) := by
          omega
        simp only [utf8DecodeAux, if_pos e5]
        have e6 : ¬((2 : Nat) ≤ 1) := by omega
        rw [if_neg e6]
        have e7 : (0x80 ≤ 0x80 + c.toNat % 64 ∧ 0x80 + c.toNat % 64 < 0xc0) := by omega
        simp only [utf8DecodeAux, if_pos e7]
        have e8 : ((0xe0 + c.toNat / 4096 - 0xe0) * 64 +
            (0x80 + c.toNat / 64 % 64 - 0x80)) * 64 + (0x80 + c.toNat % 64 - 0x80) =
            c.toNat := by omega
        simp only [le_refl, if_pos, e8]
        have e9 : 0x800 ≤ c.toNat ∧ c.toNat < 0x110000 ∧
            (c.toNat < 0xd800 ∨ 0xdfff < c.toNat) := by omega
        simp only [if_pos e9, Char.ofNat_toNat]
        simp
      · rename_i h3
        have e1 : ¬(0xf0 + c.toNat / 262144 < 0x80) := by omega
        have e2 : ¬(0xf0 + c.toNat / 262144 < 0xc0) := by omega
        have e3 : ¬(0xf0 + c.toNat / 262144 < 0xe0) := by omega
        have e4 : ¬(0xf0 + c.toNat / 262144 < 0xf0) := by omega
        have e5 : 0xf0 + c.toNat / 262144 < 0xf8 := by omega
        simp only [List.cons_append, List.nil_append, utf8DecodeAux,
          if_neg e1, if_neg e2, if_neg e3, if_neg e4, if_pos e5]
        have e6 : (0x80 ≤ 0x80 + c.toNat / 4096 % 64 ∧
            0x80 + c.toNat / 4096 % 64 < 0xc0) := by omega
        simp only [utf8DecodeAux, if_pos e6]
        have e7 : ¬((3 : Nat) ≤ 1) := by omega
        rw [if_neg e7]
        have e8 : (0x80 ≤ 0x80 + c.toNat / 64 % 64 ∧ 0x80 + c.toNat / 64 % 64 < 0xc0) := by
          omega
        simp only [utf8DecodeAux, if_pos e8]
        have e9 : ¬((3 - 1 : Nat) ≤ 1) := by omega
        rw [if_neg e9]
        have e10 : (0x80 ≤ 0x80 + c.toNat % 64 ∧ 0x80 + c.toNat % 64 < 0xc0) := by omega
        simp only [utf8DecodeAux, if_pos e10]
        have e11 : (((0xf0 + c.toNat / 262144 - 0xf0) * 64 +
            (0x80 + c.toNat / 4096 % 64 - 0x80)) * 64 +
            (0x80 + c.toNat / 64 % 64 - 0x80)) * 64 + (0x80 + c.toNat % 64 - 0x80) =
            c.toNat := by omega
        simp only [le_refl, if_pos, e11]
        have e12 : 0x10000 ≤ c.toNat ∧ c.toNat < 0x110000 ∧
            (c.toNat < 0xd800 ∨ 0xdfff < c.toNat) := by omega
        simp only [if_pos e12, Char.ofNat_toNat]
        simp

/-- UTF-8 round trip. -/
theorem utf8Decode_utf8Encode (s : Str) : utf8Decode (utf8Encode s) = some s := by
  unfold utf8Decode
  induction s with
  | nil => rfl
  | cons c cs ih =>
    have : utf8Encode (c :: cs) = utf8EncodeChar c ++ utf8Encode cs := by
      simp [utf8Encode]
    rw [this, utf8DecodeAux_encodeChar, ih, Option.map_some']

theorem utf8Encode_lt_256 (s : Str) : ∀ b ∈ utf8Encode s, b < 256 := by
  intro b hb
  unfold utf8Encode at hb
  rcases List.mem_flatMap.mp hb with ⟨c, _, hc⟩
  exact utf8EncodeChar_lt_256 c b hc

/-! ### Base64 (Python `base64.b64encode` / `base64.b64decode`) -/

/-- The standard base64 alphabet. -/
def b64Alphabet : Str :=
  "ABCDEFGHIJKLMNOPQRSTUVWXYZabcdefghijklmnopqrstuvwxyz0123456789+/".toList

/-- Character for a six-bit value. -/
def b64CharOf (n : Nat) : Char := b64Alphabet.getD n 'A'

/-- Position of a character in the base64 alphabet (`none` if absent). -/
def b64IndexOf (c : Char) : Option Nat := b64Alphabet.findIdx? (· = c)

/-- Python `base64.b64encode`, producing the padded ASCII text. -/
def b64encode : List Nat → Str
  | b1 :: b2 :: b3 :: rest =>
    b64CharOf (b1 / 4) :: b64CharOf (b1 % 4 * 16 + b2 / 16) ::
      b64CharOf (b2 % 16 * 4 + b3 / 64) :: b64CharOf (b3 % 64) :: b64encode rest
  | [b1, b2] =>
    [b64CharOf (b1 / 4), b64CharOf (b1 % 4 * 16 + b2 / 16),
      b64CharOf (b2 % 16 * 4), '=']
  | [b1] => [b64CharOf (b1 / 4), b64CharOf (b1 % 4 * 16), '=', '=']
  | [] => []

/-- Python `base64.b64decode`; a malformed input raises `binascii.Error`,
modelled as `none`. -/
def b64decode : Str → Option (List Nat)
  | [] => some []
  | c1 :: c2 :: c3 :: c4 :: rest =>
    match b64IndexOf c1, b64IndexOf c2 with
    | some s1, some s2 =>
      if c3 = '=' then
        if c4 = '=' ∧ rest = [] then some [s1 * 4 + s2 / 16] else none
      else
        match b64IndexOf c3 with
        | some s3 =>
          if c4 = '=' then
            if rest = [] then some [s1 * 4 + s2 / 16, s2 % 16 * 16 + s3 / 4]
            else none
          else
            match b64IndexOf c4, b64decode rest with
            | some s4, some tl =>
              some ((s1 * 4 + s2 / 16) :: (s2 % 16 * 16 + s3 / 4) ::
                (s3 % 4 * 64 + s4) :: tl)
            | _, _ => none
        | none => none
    | _, _ => none
  | _ => none

theorem b64IndexOf_b64CharOf : ∀ n, n < 64 → b64IndexOf (b64CharOf n) = some n := by
  decide

theorem b64CharOf_ne_eq : ∀ n, n < 64 → b64CharOf n ≠ '=' := by decide

/-- Base64 round trip on byte lists. -/
theorem b64decode_b64encode :
    ∀ (l : List Nat), (∀ b ∈ l, b < 256) → b64decode (b64encode l) = some l
  | [], _ => rfl
  | [b1], h => by
    have hb1 : b1 < 256 := h b1 (by simp)
    have n1 := b64IndexOf_b64CharOf (b1 / 4) (by omega)
    have n2 := b64IndexOf_b64CharOf (b1 % 4 * 16) (by omega)
    simp only [b64encode, b64decode, n1, n2]
    simp
    omega
  | [b1, b2], h => by
    have hb1 : b1 < 256 := h b1 (by simp)
    have hb2 : b2 < 256 := h b2 (by simp)
    have n1 := b64IndexOf_b64CharOf (b1 / 4) (by omega)
    have n2 := b64IndexOf_b64CharOf (b1 % 4 * 16 + b2 / 16) (by omega)
    have n3 := b64IndexOf_b64CharOf (b2 % 16 * 4) (by omega)
    have m3 := b64CharOf_ne_eq (b2 % 16 * 4) (by omega)
    simp only [b64encode, b64decode, n1, n2, n3, if_neg m3]
    simp
    omega
  | b1 :: b2 :: b3 :: rest, h => by
    have hb1 : b1 < 256 := h b1 (by simp)
    have hb2 : b2 < 256 := h b2 (by simp)
    have hb3 : b3 < 256 := h b3 (by simp)
    have ih := b64decode_b64encode rest
      (fun b hb => h b (by simp at hb ⊢; tauto))
    have n1 := b64IndexOf_b64CharOf (b1 / 4) (by omega)
    have n2 := b64IndexOf_b64CharOf (b1 % 4 * 16 + b2 / 16) (by omega)
    have n3 := b64IndexOf_b64CharOf (b2 % 16 * 4 + b3 / 64) (by omega)
    have n4 := b64IndexOf_b64CharOf (b3 % 64) (by omega)
    have m3 := b64CharOf_ne_eq (b2 % 16 * 4 + b3 / 64) (by omega)
    have m4 := b64CharOf_ne_eq (b3 % 64) (by omega)
    simp only [b64encode, b64decode, n1, n2, n3, n4, if_neg m3, if_neg m4, ih]
    simp
    refine ⟨by omega, by omega, by omega⟩

/-! ### CRC32 (`zlib.crc32`) and the 4-hex-digit checksum -/

/-- One bit step of the reflected CRC-32 computation
(polynomial `0xedb88320`). -/
def crc32Step (crc : Nat) : Nat :=
  if crc % 2 = 1 then crc / 2 ^^^ 0xedb88320 else crc / 2

/-- Model of `zlib.crc32(data) & 0xffffffff` over a byte list. -/
def crc32 (bs : List Nat) : Nat :=
  (bs.foldl (fun crc b => crc32Step^[8] (crc ^^^ b)) 0xffffffff ^^^ 0xffffffff) &&&
    0xffffffff

/-- The sixteen lowercase hex digits. -/
def hexDigits : Str := "0123456789abcdef".toList

/-- Lowercase hex digit for a nibble. -/
def hexDigitCharOf (d : Nat) : Char := hexDigits.getD d '0'

/-- Model of `f"{crc:08x}"`: eight lowercase hex digits, most significant first. -/
def hex8 (n : Nat) : Str :=
  [hexDigitCharOf (n / 16 ^ 7 % 16), hexDigitCharOf (n / 16 ^ 6 % 16),
   hexDigitCharOf (n / 16 ^ 5 % 16), hexDigitCharOf (n / 16 ^ 4 % 16),
   hexDigitCharOf (n / 16 ^ 3 % 16), hexDigitCharOf (n / 16 ^ 2 % 16),
   hexDigitCharOf (n / 16 % 16), hexDigitCharOf (n % 16)]

/-- Model of `generate_checksum(data)` from `main.py` / `main_gui.py`: the CRC32 of the
UTF-8 bytes, rendered as 8 lowercase hex digits and truncated to the first 4. -/
def generate_checksum (data : Str) : Str :=
  (hex8 (crc32 (utf8Encode data))).take 4

theorem hexDigitCharOf_mem (d : Nat) : hexDigitCharOf d ∈ hexDigits := by
  unfold hexDigitCharOf List.getD
  rw [List.get?_eq_getElem?]
  rcases hq : hexDigits[d]? with _ | c
  · decide
  · simpa using List.getElem?_mem hq

theorem hexDigits_not_delim : ∀ c ∈ hexDigits, c ≠ '|' ∧ c ≠ ';' ∧ c ≠ ',' := by
  decide

/-- No character of a checksum is a delimiter. -/
theorem generate_checksum_chars (data : Str) :
    ∀ c ∈ generate_checksum data, c ≠ '|' ∧ c ≠ ';' ∧ c ≠ ',' := by
  intro c hc
  have hmem : c ∈ hex8 (crc32 (utf8Encode data)) :=
    List.mem_of_mem_take hc
  simp only [hex8, List.mem_cons, List.not_mem_nil, or_false] at hmem
  have key : ∀ d, hexDigitCharOf d ≠ '|' ∧ hexDigitCharOf d ≠ ';' ∧
      hexDigitCharOf d ≠ ',' := fun d => hexDigits_not_delim _ (hexDigitCharOf_mem d)
  rcases hmem with h | h | h | h | h | h | h | h <;> rw [h] <;> exact key _

/-! ### `encode_deck_code` / `decode_deck_code` -/

/-- Model of `encode_deck_code(data)`: append `|` + checksum, then base64 the UTF-8
bytes. -/
def encode_deck_code (data : Str) : Str :=
  b64encode (utf8Encode (data ++ '|' :: generate_checksum data))

/-- Model of `decode_deck_code(code)`: returns `(data, valid)`; any raised exception
yields `(None, False)`. -/
def decode_deck_code (code : Str) : Option Str × Bool :=
  match b64decode code with
  | none => (none, false)
  | some bytes =>
    match utf8Decode bytes with
    | none => (none, false)
    | some decoded =>
      match splitOnChar '|' decoded with
      | [data, checksum] =>
        if generate_checksum data = checksum then (some data, true)
        else (none, false)
      | _ => (none, false)

/-- Decoding an encoded payload recovers it whenever the payload contains no
`|` character. -/
theorem decode_encode_deck_code {data : Str} (h : '|' ∉ data) :
    decode_deck_code (encode_deck_code data) = (some data, true) := by
  have hcs : '|' ∉ generate_checksum data := by
    intro hc
    exact (generate_checksum_chars data '|' hc).1 rfl
  have h1 := b64decode_b64encode (utf8Encode (data ++ '|' :: generate_checksum data))
    (utf8Encode_lt_256 _)
  have h2 := utf8Decode_utf8Encode (data ++ '|' :: generate_checksum data)
  have h3 : splitOnChar '|' (data ++ '|' :: generate_checksum data) =
      [data, generate_checksum data] := by
    rw [splitOnChar_append_sep _ h, splitOnChar_of_not_mem hcs]
  simp only [decode_deck_code, encode_deck_code, h1, h2, h3]
  simp

/-! ### Cards, characters and decks (`main_gui.py` data classes) -/

/-- Model of `Card` dataclass (shared shape between `main.py` and `main_gui.py`;
the GUI-only `image_path` field is presentation data and is not modelled). -/
structure Card where
  id : Str
  name : Str
  elements : List Element
  cost : Int
  rarity : Rarity
  description : Str
  attack : Int := 0
  defense : Int := 0
  health : Int := 0
deriving DecidableEq, Repr

/-- Model of `Character` dataclass from `main_gui.py` (again without `image_path`). -/
structure Character where
  id : Str
  name : Str
  elements : List Element
  health : Int
  energy : Int
  defense : Int
  attack : Int
  ability : Str
  description : Str
  is_active_ability : Bool
deriving DecidableEq, Repr

/-- Model of `Character.is_mage` from `main_gui.py`: only a character whose element
list is exactly `[PHYSICAL]` is a non-mage. -/
def Character.is_mage (c : Character) : Bool :=
  !(c.elements.length == 1 && c.elements.getD 0 .physical == Element.physical)

/-- The fields of a `Deck` that take part in the deck-code round trip. -/
structure DeckData where
  name : Str
  deck_type : DeckType
  cards : List Card
  characters : List Character
  max_card_limit : Int
deriving DecidableEq, Repr

/-- The payload string built by `Deck._update_deck_code`:
`f"{name};{int(deck_type)};{char_ids};{card_ids};{max_card_limit};"`. -/
def deckCodePayload (d : DeckData) : Str :=
  d.name ++ ';' :: (intToStr d.deck_type.toInt ++ ';' ::
    (joinWith [','] (d.characters.map (·.id)) ++ ';' ::
      (joinWith [','] (d.cards.map (·.id)) ++ ';' ::
        (intToStr d.max_card_limit ++ [';']))))

/-- Model of `Deck._update_deck_code`: the deck code is the encoded payload. -/
def updateDeckCode (d : DeckData) : Str := encode_deck_code (deckCodePayload d)

/-- The deck fields produced by a successful `Deck.import_from_code`. -/
structure ImportResult where
  name : Str
  deck_type : DeckType
  characters : List Character
  cards : List Card
  max_card_limit : Int
deriving DecidableEq, Repr

/-- Model of `Deck.import_from_code(code, all_cards, all_characters)`.  The source
mutates `self` and returns a `bool`; here a `False` return is `none` and a
`True` return carries the imported fields.  `old_limit` is the deck's
`max_card_limit` before the call (kept when `int(parts[4])` raises
`ValueError`, which the source swallows with `pass`). -/
def import_from_code (code : Str) (all_cards : List Card)
    (all_characters : List Character) (old_limit : Int) : Option ImportResult :=
  match decode_deck_code code with
  | (some data, true) =>
    let parts := splitOnChar ';' data
    if parts.length < 4 then none
    else
      match pyInt (parts.getD 1 []) with
      | none => none
      | some dtInt =>
        match deckTypeOfInt dtInt with
        | none => none
        | some dt =>
          let char_ids :=
            if parts.getD 2 [] = [] then [] else splitOnChar ',' (parts.getD 2 [])
          let characters := char_ids.filterMap (fun cid =>
            if cid = [] then none else all_characters.find? (fun c => c.id == cid))
          let card_ids :=
            if parts.getD 3 [] = [] then [] else splitOnChar ',' (parts.getD 3 [])
          let cards := card_ids.filterMap (fun cid =>
            if cid = [] then none else all_cards.find? (fun c => c.id == cid))
          let limit :=
            if 5 ≤ parts.length then
              match pyInt (parts.getD 4 []) with
              | some v => v
              | none => old_limit
            else old_limit
          some ⟨parts.getD 0 [], dt, characters, cards, limit⟩
  | _ => none

/-! ### Helper lemmas for the round-trip analysis -/

theorem mem_joinWith {c : Char} {sep : Str} :
    ∀ {parts : List Str}, c ∈ joinWith sep parts →
      c ∈ sep ∨ ∃ p ∈ parts, c ∈ p := by
  intro parts
  induction parts with
  | nil => intro h; simp [joinWith] at h
  | cons p ps ih =>
    intro h
    cases ps with
    | nil =>
      simp only [joinWith] at h
      exact Or.inr ⟨p, by simp, h⟩
    | cons q qs =>
      simp only [joinWith, List.append_assoc, List.mem_append] at h
      rcases h with h | h | h
      · exact Or.inr ⟨p, by simp, h⟩
      · exact Or.inl h
      · rcases ih h with h' | ⟨x, hx, hcx⟩
        · exact Or.inl h'
        · exact Or.inr ⟨x, by simp [hx], hcx⟩

theorem intToStr_chars (k : Int) :
    ∀ c ∈ intToStr k, c = '-' ∨ ('0' ≤ c ∧ c ≤ '9') := by
  intro c hc
  unfold intToStr at hc
  split at hc
  · rcases List.mem_cons.mp hc with h | h
    · exact Or.inl h
    · exact Or.inr (natToStr_digits _ c h)
  · exact Or.inr (natToStr_digits _ c hc)

theorem intToStr_no_delim (k : Int) :
    ';' ∉ intToStr k ∧ ',' ∉ intToStr k ∧ '|' ∉ intToStr k := by
  refine ⟨fun h => ?_, fun h => ?_, fun h => ?_⟩ <;>
    rcases intToStr_chars k _ h with h' | h' <;> revert h' <;> decide

/-- A string clean of the three delimiter characters. -/
def cleanStr (s : Str) : Prop := ∀ c ∈ s, c ≠ ';' ∧ c ≠ ',' ∧ c ≠ '|'

instance (s : Str) : Decidable (cleanStr s) := by
  unfold cleanStr; infer_instance

theorem joinWith_comma_no_semi {ids : List Str} (h : ∀ i ∈ ids, cleanStr i) :
    ';' ∉ joinWith [','] ids := by
  intro hc
  rcases mem_joinWith hc with h' | ⟨p, hp, hcp⟩
  · simp at h'
  · exact (h p hp ';' hcp).1 rfl

theorem joinWith_comma_no_pipe {ids : List Str} (h : ∀ i ∈ ids, cleanStr i) :
    '|' ∉ joinWith [','] ids := by
  intro hc
  rcases mem_joinWith hc with h' | ⟨p, hp, hcp⟩
  · simp at h'
  · exact (h p hp '|' hcp).2.2 rfl

/-- Splitting the encoded payload on `;` recovers the six fields. -/
theorem splitOnChar_deckCodePayload (d : DeckData)
    (hname : cleanStr d.name)
    (hchars : ∀ i ∈ d.characters.map Character.id, cleanStr i)
    (hcards : ∀ i ∈ d.cards.map Card.id, cleanStr i) :
    splitOnChar ';' (deckCodePayload d) =
      [d.name, intToStr d.deck_type.toInt,
        joinWith [','] (d.characters.map (·.id)),
        joinWith [','] (d.cards.map (·.id)),
        intToStr d.max_card_limit, []] := by
  unfold deckCodePayload
  rw [splitOnChar_append_sep _ (fun hc => (hname ';' hc).1 rfl)]
  rw [splitOnChar_append_sep _ (intToStr_no_delim _).1]
  rw [splitOnChar_append_sep _ (joinWith_comma_no_semi hchars)]
  rw [splitOnChar_append_sep _ (joinWith_comma_no_semi hcards)]
  have : intToStr d.max_card_limit ++ [';'] =
      intToStr d.max_card_limit ++ ';' :: [] := rfl
  rw [this, splitOnChar_append_sep _ (intToStr_no_delim _).1]
  rfl

/-- The payload of a clean deck contains no `|`. -/
theorem deckCodePayload_no_pipe (d : DeckData)
    (hname : cleanStr d.name)
    (hchars : ∀ i ∈ d.characters.map Character.id, cleanStr i)
    (hcards : ∀ i ∈ d.cards.map Card.id, cleanStr i) :
    '|' ∉ deckCodePayload d := by
  intro hc
  unfold deckCodePayload at hc
  simp only [List.mem_append, List.mem_cons] at hc
  rcases hc with h | h | h | h | h | h | h | h | h
  · exact (hname '|' h).2.2 rfl
  · exact absurd h (by decide)
  · exact (intToStr_no_delim _).2.2 h
  · exact absurd h (by decide)
  · exact joinWith_comma_no_pipe hchars h
  · exact absurd h (by decide)
  · exact joinWith_comma_no_pipe hcards h
  · exact absurd h (by decide)
  · rcases h with h' | h' | h'
    · exact (intToStr_no_delim _).2.2 h'
    · exact absurd h' (by decide)
    · simp at h'

/-- Looking up a list of non-empty catalog-backed ids reproduces the ids. -/
theorem filterMap_find_map_proj {α : Type} (f : α → Str) (cat : List α) :
    ∀ (ids : List Str), (∀ i ∈ ids, i ≠ [] ∧ ∃ x ∈ cat, f x = i) →
      (ids.filterMap (fun cid =>
        if cid = [] then none else cat.find? (fun c => f c == cid))).map f = ids := by
  intro ids
  induction ids with
  | nil => intro _; rfl
  | cons i ids ih =>
    intro h
    obtain ⟨hne, x, hx, hfx⟩ := h i (by simp)
    have hsome : (cat.find? (fun c => f c == i)).isSome := by
      rw [List.find?_isSome]
      exact ⟨x, hx, by simp [hfx]⟩
    rcases hfind : cat.find? (fun c => f c == i) with _ | y
    · rw [hfind] at hsome; simp at hsome
    · have hy : f y = i := by
        have := List.find?_some hfind
        simpa using this
      simp only [List.filterMap_cons, if_neg hne, hfind, List.map_cons, hy]
      rw [ih (fun j hj => h j (by simp [hj]))]

/-- Looking up arbitrary non-empty ids keeps exactly those present in the
catalog, in order (unknown ids are dropped). -/
theorem filterMap_find_map_proj_filter {α : Type} (f : α → Str) (cat : List α) :
    ∀ (ids : List Str), (∀ i ∈ ids, i ≠ []) →
      (ids.filterMap (fun cid =>
        if cid = [] then none else cat.find? (fun c => f c == cid))).map f =
        ids.filter (fun i => cat.any (fun c => f c == i)) := by
  intro ids
  induction ids with
  | nil => intro _; rfl
  | cons i ids ih =>
    intro h
    have hne : i ≠ [] := h i (by simp)
    have ihr := ih (fun j hj => h j (by simp [hj]))
    rcases hfind : cat.find? (fun c => f c == i) with _ | y
    · have hany : cat.any (fun c => f c == i) = false := by
        rw [List.any_eq_false]
        intro x hx
        have := List.find?_eq_none.mp hfind x hx
        simpa using this
      simp only [List.filterMap_cons, if_neg hne, hfind, List.filter_cons, hany]
      simp [ihr]
    · have hy : f y = i := by simpa using List.find?_some hfind
      have hmem : y ∈ cat := List.mem_of_find?_eq_some hfind
      have hany : cat.any (fun c => f c == i) = true := by
        rw [List.any_eq_true]
        exact ⟨y, hmem, by simp [hy]⟩
      simp only [List.filterMap_cons, if_neg hne, hfind, List.map_cons, hy,
        List.filter_cons, hany]
      simp [ihr]

theorem joinWith_ne_nil {sep : Str} {parts : List Str} (h1 : parts ≠ [])
    (h2 : ∀ p ∈ parts, p ≠ []) : joinWith sep parts ≠ [] := by
  cases parts with
  | nil => exact absurd rfl h1
  | cons p ps =>
    cases ps with
    | nil => simpa [joinWith] using h2 p (by simp)
    | cons q qs =>
      simp [joinWith, List.append_eq_nil, h2 p (by simp)]

theorem deckTypeOfInt_toInt (dt : DeckType) : deckTypeOfInt dt.toInt = some dt := by
  cases dt <;> rfl

/-- Reconstructing an id list: splitting the comma join of non-empty clean
ids gives back the ids (including through the `if parts[i]` guard). -/
theorem split_join_ids {ids : List Str} (h : ∀ i ∈ ids, i ≠ [] ∧ cleanStr i) :
    (if joinWith [','] ids = [] then [] else splitOnChar ',' (joinWith [','] ids)) =
      ids := by
  cases hids : ids with
  | nil => simp [joinWith]
  | cons i rest =>
    rw [← hids]
    have hne : joinWith [','] ids ≠ [] :=
      joinWith_ne_nil (by simp [hids]) (fun p hp => (h p hp).1)
    rw [if_neg hne,
      splitOnChar_joinWith (by simp [hids]) (fun p hp hc => (h p hp).2 ',' hc |>.2.1 rfl)]

/-- C1 amended: round trip of the deck codec through
`Deck._update_deck_code` and `Deck.import_from_code`.  If the deck's name is
free of `;`, `,` and `|` AND its character ids and card ids are non-empty and
also free of those delimiters (a restriction the original claim lacked), and
each id occurs in the catalogs supplied to the import, then the import
succeeds and reproduces the name, deck type, character-id list, card-id list
and card limit exactly. -/
theorem import_updateDeckCode (d : DeckData) (all_cards : List Card)
    (all_characters : List Character) (old_limit : Int)
    (hname : cleanStr d.name)
    (hchars : ∀ i ∈ d.characters.map Character.id, i ≠ [] ∧ cleanStr i)
    (hcards : ∀ i ∈ d.cards.map Card.id, i ≠ [] ∧ cleanStr i)
    (hfc : ∀ i ∈ d.characters.map Character.id, ∃ x ∈ all_characters, x.id = i)
    (hfk : ∀ i ∈ d.cards.map Card.id, ∃ x ∈ all_cards, x.id = i) :
    ∃ r, import_from_code (updateDeckCode d) all_cards all_characters old_limit =
        some r ∧
      r.name = d.name ∧ r.deck_type = d.deck_type ∧
      r.characters.map (·.id) = d.characters.map (·.id) ∧
      r.cards.map (·.id) = d.cards.map (·.id) ∧
      r.max_card_limit = d.max_card_limit := by
  have hcharsC : ∀ i ∈ d.characters.map Character.id, cleanStr i :=
    fun i hi => (hchars i hi).2
  have hcardsC : ∀ i ∈ d.cards.map Card.id, cleanStr i :=
    fun i hi => (hcards i hi).2
  have hpipe := deckCodePayload_no_pipe d hname hcharsC hcardsC
  have hsplit := splitOnChar_deckCodePayload d hname hcharsC hcardsC
  have hdec := decode_encode_deck_code hpipe
  unfold import_from_code updateDeckCode
  rw [hdec]
  simp only [hsplit]
  rw [if_neg (by simp)]
  simp only [List.getD_cons_zero, List.getD_cons_succ]
  rw [pyInt_intToStr]
  simp only []
  rw [deckTypeOfInt_toInt]
  simp only []
  refine ⟨_, rfl, rfl, rfl, ?_, ?_, ?_⟩
  · rw [split_join_ids hchars]
    exact filterMap_find_map_proj Character.id all_characters _
      (fun i hi => ⟨(hchars i hi).1, hfc i hi⟩)
  · rw [split_join_ids hcards]
    exact filterMap_find_map_proj Card.id all_cards _
      (fun i hi => ⟨(hcards i hi).1, hfk i hi⟩)
  · simp [pyInt_intToStr]

/-! ### Battle state (`main_gui.py`) -/

/-- Model of `CharacterState` dataclass from `main_gui.py`. -/
structure CharacterState where
  character : Character
  cur_hp : Int
  cur_energy : Int
  taunt : Bool := false
  confused : Bool := false
deriving DecidableEq, Repr

/-- Model of `CharacterState.take_damage(damage, is_magic, base_player)`: returns the
updated state together with the overflow.  (The `base_player` parameter is
unused by the source method and therefore omitted.) -/
def CharacterState.take_damage (cs : CharacterState) (damage : Int)
    (is_magic : Bool) : CharacterState × Int :=
  let cs1 : CharacterState :=
    if cs.character.is_mage then
      if is_magic then
        let mana_absorbed := min cs.cur_energy damage
        let cs' := {cs with cur_energy := cs.cur_energy - mana_absorbed}
        let remaining_damage := damage - mana_absorbed
        if remaining_damage > 0 then {cs' with cur_hp := cs'.cur_hp - remaining_damage}
        else cs'
      else {cs with cur_hp := cs.cur_hp - damage}
    else {cs with cur_hp := cs.cur_hp - damage}
  if cs1.cur_hp < 0 then ({cs1 with cur_hp := 0}, -cs1.cur_hp) else (cs1, 0)

/-- Model of `CharacterState.can_attack`. -/
def CharacterState.can_attack (cs : CharacterState) : Bool :=
  !cs.confused && decide (cs.cur_hp > 0)

/-- Model of `PlayerBattleState` dataclass from `main_gui.py`. -/
structure PlayerBattleState where
  name : Str
  base_hp : Int := 50
  base_mana : Int := 30
  chars : List CharacterState := []
  deck : List Card := []
  hand : List Card := []
  discard : List Card := []
  extra_mana_per_turn : Int := 0
deriving DecidableEq, Repr

/-- Model of `PlayerBattleState.has_reserve`. -/
def PlayerBattleState.has_reserve (p : PlayerBattleState) : Bool :=
  decide (p.chars.length ≥ 3)

/-- The exclusive-ability card built inside `PlayerBattleState.start_turn`. -/
def abilityCard (c : Character) : Card :=
  { id := "ability_".toList ++ c.id
    name := c.ability
    elements := if c.is_mage then c.elements else [Element.physical]
    cost := 0
    rarity := .mythic
    description := c.description }

/-- The exclusive-ability cards `start_turn` appends to the hand: one per
character whose ability is active and who is alive, in slot order. -/
def abilityCards (p : PlayerBattleState) : List Card :=
  p.chars.filterMap (fun cs =>
    if cs.character.is_active_ability ∧ cs.cur_hp > 0 then
      some (abilityCard cs.character)
    else none)

/-- Model of `PlayerBattleState.start_turn`: mana regeneration (capped at 30), +5
energy for each mage (capped at that character's maximum), exclusive-ability
card generation, then drawing one card if the deck is non-empty. -/
def PlayerBattleState.start_turn (p : PlayerBattleState) : PlayerBattleState :=
  let p1 : PlayerBattleState :=
    {p with base_mana := min 30 (p.base_mana + 5 + p.extra_mana_per_turn)}
  let p2 : PlayerBattleState := {p1 with chars := p1.chars.map (fun cs =>
      if cs.character.is_mage then
        {cs with cur_energy := min cs.character.energy (cs.cur_energy + 5)}
      else cs)}
  let p3 : PlayerBattleState := {p2 with hand := p2.hand ++ abilityCards p2}
  match p3.deck with
  | [] => p3
  | c :: rest => {p3 with hand := p3.hand ++ [c], deck := rest}

/-- Model of `PlayerBattleState.pay_cost(cost, actor)`: the method mutates
`self.base_mana` and `actor`; the model returns
`(result, updated actor, updated base mana)`. -/
def pay_cost (cost : Int) (actor : CharacterState) (base_mana : Int) :
    Bool × CharacterState × Int :=
  let remaining := cost
  let step1 : CharacterState × Int :=
    if actor.character.is_mage then
      let from_char := min actor.cur_energy remaining
      ({actor with cur_energy := actor.cur_energy - from_char}, remaining - from_char)
    else (actor, remaining)
  let actor1 := step1.1
  let remaining1 := step1.2
  let from_base := min base_mana remaining1
  let base_mana1 := base_mana - from_base
  let remaining2 := remaining1 - from_base
  if remaining2 > 0 then
    let actor2 := {actor1 with cur_hp := actor1.cur_hp - remaining2}
    if actor2.cur_hp ≤ 0 then (false, actor2, base_mana1)
    else (true, actor2, base_mana1)
  else (true, actor1, base_mana1)

/-- Model of `computeDamage` as performed inline by `BattleScene.play_card`
(`main_gui.py` lines 1903–1910): base `max(1, cost)`, doubled only when the
card shares an element with the actor **and** the actor is a mage; no effect
registry exists in the GUI engine. -/
def computeDamageGui (card : Card) (actor : Character) : Int :=
  let base_dmg := max 1 card.cost
  let element_match := card.elements.any (fun e => actor.elements.contains e)
  base_dmg * (if element_match && actor.is_mage then 2 else 1)

/-- The character-target branch of `BattleScene.play_card`
(`main_gui.py` lines 1918–1941): damage application, overflow to the base,
then death/reserve promotion (`chars.pop(2)` after replacing the dead slot). -/
def resolveCharHit (opp : PlayerBattleState) (tidx : Nat) (dmg : Int)
    (is_magic : Bool) : PlayerBattleState :=
  match opp.chars[tidx]? with
  | none => opp
  | some target0 =>
    let r := target0.take_damage dmg is_magic
    let target := r.1
    let overflow := r.2
    let opp1 := {opp with chars := opp.chars.set tidx target}
    let opp2 :=
      if overflow > 0 then {opp1 with base_hp := opp1.base_hp - overflow} else opp1
    if target.cur_hp ≤ 0 then
      if opp2.has_reserve then
        match opp2.chars[2]? with
        | some reserve =>
          if reserve.cur_hp > 0 then
            {opp2 with chars := (opp2.chars.set tidx reserve).eraseIdx 2}
          else opp2
        | none => opp2
      else opp2
    else opp2

/-- The winner branch taken by the final check of `BattleScene.play_card`
(`some 2` = player 2 wins, `some 1` = player 1 wins): player 1's base is
tested first. -/
def play_card_winner (p1 p2 : PlayerBattleState) : Option Nat :=
  if p1.base_hp ≤ 0 then some 2
  else if p2.base_hp ≤ 0 then some 1
  else none

/-- The `BattleScene` fields that `play_card` reads or writes. -/
structure BattleSceneState where
  player1 : PlayerBattleState
  player2 : PlayerBattleState
  current_turn : Nat := 0
  turn_number : Nat := 1
  selected_hand_index : Int := -1
  selected_actor_index : Int := -1
  selected_target : Option Str := none
  battle_started : Bool := true
deriving DecidableEq, Repr

/-- Model of `BattleScene.play_card` (`main_gui.py` lines 1856–1955).  Early
validation failures return the state unchanged (`some bs`); `none` models an
uncaught Python exception (stale selection index or malformed target string,
unreachable through the UI). -/
def play_card (bs : BattleSceneState) : Option BattleSceneState :=
  if bs.selected_hand_index < 0 ∨ bs.selected_actor_index < 0 ∨
      bs.selected_target = none then
    some bs
  else
    let cp := if bs.current_turn = 0 then bs.player1 else bs.player2
    let opp := if bs.current_turn = 0 then bs.player2 else bs.player1
    let shi := bs.selected_hand_index.toNat
    let sai := bs.selected_actor_index.toNat
    match cp.hand[shi]?, cp.chars[sai]? with
    | some card, some actor =>
      if ¬actor.can_attack then some bs
      else
        let is_physical := card.elements.contains Element.physical
        let actor_is_mage := actor.character.is_mage
        if ¬actor_is_mage ∧ ¬is_physical then some bs
        else
          let cost : Int := if is_physical then 0 else card.cost
          let finish : PlayerBattleState → Option BattleSceneState := fun cp =>
            let final_dmg := computeDamageGui card actor.character
            let dmg_is_magic := !is_physical
            let oppRes :=
              if bs.selected_target = some ['b'] then
                some {opp with base_hp := opp.base_hp - final_dmg}
              else
                match bs.selected_target with
                | some t =>
                  match t[1]? with
                  | some ch =>
                    if '0' ≤ ch ∧ ch ≤ '9' then
                      some (resolveCharHit opp (ch.toNat - 48) final_dmg dmg_is_magic)
                    else none
                  | none => none
                | none => none
            match oppRes with
            | none => none
            | some opp =>
              let cp := {cp with
                discard := cp.discard ++ [card], hand := cp.hand.eraseIdx shi}
              let bs1 :=
                if bs.current_turn = 0 then {bs with player1 := cp, player2 := opp}
                else {bs with player1 := opp, player2 := cp}
              let bs2 := {bs1 with
                selected_hand_index := -1, selected_actor_index := -1,
                selected_target := none}
              some (if (play_card_winner bs2.player1 bs2.player2).isSome then
                  {bs2 with battle_started := false}
                else bs2)
          if cost > 0 then
            let available_energy := if actor_is_mage then actor.cur_energy else 0
            let total_available := available_energy + cp.base_mana
            if total_available < cost then some bs
            else
              let r := pay_cost cost actor cp.base_mana
              let cp := {cp with base_mana := r.2.2, chars := cp.chars.set sai r.2.1}
              if r.1 = false then
                some (if bs.current_turn = 0 then {bs with player1 := cp}
                  else {bs with player2 := cp})
              else finish cp
          else finish cp
    | _, _ => none

/-! ### Battle state (`main.py`, console engine inside `start_battle`) -/

/-- Model of `Character` dataclass from `main.py`. -/
structure MainCharacter where
  id : Str
  name : Str
  elements : List Element
  health : Int
  energy : Int
  ability : Str
  description : Str
  passive_ability : Str
  passive_description : Str
deriving DecidableEq, Repr

/-- Model of `is_mage(char)` helper from `main.py`'s `start_battle`:
`any(e != Element.PHYSICAL for e in char.elements)`. -/
def isMageMain (c : MainCharacter) : Bool :=
  c.elements.any (fun e => e != Element.physical)

/-- The local `CharacterState` dataclass of `main.py`'s `start_battle`. -/
structure MainCharState where
  character : MainCharacter
  cur_hp : Int
  cur_energy : Int
deriving DecidableEq, Repr

/-- The local `PlayerState` dataclass of `main.py`'s `start_battle`. -/
structure MainPlayerState where
  name : Str
  base_hp : Int := 50
  base_mana : Int := 30
  chars : List MainCharState := []
  deck : List Card := []
  hand : List Card := []
deriving DecidableEq, Repr

/-- The effect registry of `main.py`'s `start_battle`: `register_effect` is
called for `"Wordle"` (damage ×2) and `"madposion"` (damage ×3).  The
registered lambdas ignore their owner/opponent arguments, so the model keeps
only the damage argument. -/
def card_effects (card_id : Str) : Option (Int → Int) :=
  if card_id = "Wordle".toList then some (fun dmg => dmg * 2)
  else if card_id = "madposion".toList then some (fun dmg => dmg * 3)
  else none

/-- Model of `final_dmg = card_effects[card.id](cur, opp, final_dmg)` when the card id
is registered, identity otherwise. -/
def applyCardEffect (card_id : Str) (dmg : Int) : Int :=
  match card_effects card_id with
  | some f => f dmg
  | none => dmg

/-- The damage computation of `main.py`'s `start_battle` (lines 933–941):
base `max(1, cost)`, doubled whenever the card shares an element with the
actor (no mage requirement), then the registered effect transform. -/
def computeDamageMain (card : Card) (actor : MainCharacter) : Int :=
  let base_dmg := max 1 card.cost
  let element_match := card.elements.any (fun e => actor.elements.contains e)
  let final_dmg := base_dmg * (if element_match then 2 else 1)
  applyCardEffect card.id final_dmg

/-- Model of `apply_damage_to_char(player, idx, dmg, is_magic)` from `main.py`
(lines 771–798).  The source also returns immediately for `idx < 0`; indices
are modelled as `Nat` so only the `idx >= len` guard remains. -/
def apply_damage_to_char (p : MainPlayerState) (idx : Nat) (dmg0 : Int)
    (is_magic : Bool) : MainPlayerState :=
  match p.chars[idx]? with
  | none => p
  | some cs0 =>
    let step1 : MainCharState × Int :=
      if is_magic && isMageMain cs0.character then
        let energy_taken := min cs0.cur_energy dmg0
        ({cs0 with cur_energy := cs0.cur_energy - energy_taken}, dmg0 - energy_taken)
      else (cs0, dmg0)
    let cs1 := step1.1
    let dmg := step1.2
    let cs2 := if dmg > 0 then {cs1 with cur_hp := cs1.cur_hp - dmg} else cs1
    let chars1 := p.chars.set idx cs2
    if cs2.cur_hp ≤ 0 then
      let overflow := -cs2.cur_hp
      let p1 :=
        if chars1.length = 3 then
          match chars1[2]? with
          | some res => {p with chars := (chars1.set idx res).dropLast}
          | none => {p with chars := chars1}
        else {p with chars := chars1.set idx {cs2 with cur_hp := 0}}
      if overflow > 0 then {p1 with base_hp := p1.base_hp - overflow} else p1
    else {p with chars := chars1}

/-- Model of `check_winner(p1, p2)` from `main.py`: `2` = player 2 wins, `1` =
player 1 wins, `0` = battle continues; player 1's base is tested first. -/
def check_winner (p1 p2 : MainPlayerState) : Nat :=
  if p1.base_hp ≤ 0 then 2
  else if p2.base_hp ≤ 0 then 1
  else 0

/-! ### Characterization lemmas for the battle operations -/

/-- Energy actually taken by `pay_cost`. -/
def payEnergyTaken (cost : Int) (actor : CharacterState) : Int :=
  if actor.character.is_mage then min actor.cur_energy cost else 0

/-- Base mana actually taken by `pay_cost`. -/
def payManaTaken (cost : Int) (actor : CharacterState) (base_mana : Int) : Int :=
  min base_mana (cost - payEnergyTaken cost actor)

/-- Hit points actually taken by `pay_cost` (the life-payment fallback). -/
def payHpTaken (cost : Int) (actor : CharacterState) (base_mana : Int) : Int :=
  cost - payEnergyTaken cost actor - payManaTaken cost actor base_mana

theorem pay_cost_eq (cost : Int) (actor : CharacterState) (base_mana : Int)
    (hc : 0 ≤ cost) (he : 0 ≤ actor.cur_energy) (hm : 0 ≤ base_mana) :
    pay_cost cost actor base_mana =
      (decide (¬(0 < payHpTaken cost actor base_mana ∧
          actor.cur_hp - payHpTaken cost actor base_mana ≤ 0)),
        {actor with
          cur_energy := actor.cur_energy - payEnergyTaken cost actor,
          cur_hp := actor.cur_hp - payHpTaken cost actor base_mana},
        base_mana - payManaTaken cost actor base_mana) := by
  unfold pay_cost payHpTaken payManaTaken payEnergyTaken
  cases hmg : actor.character.is_mage with
  | false =>
    simp only [hmg, Bool.false_eq_true, if_false]
    split_ifs with h1 h2 <;> simp_all <;>
      (try constructor) <;> (try congr 1) <;> omega
  | true =>
    simp only [hmg, if_true]
    split_ifs with h1 h2 <;> simp_all <;>
      (try constructor) <;> (try congr 1) <;> omega

/-- Energy absorbed by `CharacterState.take_damage`. -/
def absorbedEnergy (cs : CharacterState) (damage : Int) (is_magic : Bool) : Int :=
  if cs.character.is_mage && is_magic then min cs.cur_energy damage else 0

theorem take_damage_eq (cs : CharacterState) (damage : Int) (is_magic : Bool)
    (hd : 0 ≤ damage) (he : 0 ≤ cs.cur_energy) :
    cs.take_damage damage is_magic =
      ({cs with
          cur_energy := cs.cur_energy - absorbedEnergy cs damage is_magic,
          cur_hp := max 0 (cs.cur_hp - (damage - absorbedEnergy cs damage is_magic))},
        max 0 (-(cs.cur_hp - (damage - absorbedEnergy cs damage is_magic)))) := by
  unfold CharacterState.take_damage absorbedEnergy
  cases hmg : cs.character.is_mage with
  | false =>
    simp only [hmg, Bool.false_eq_true, if_false, Bool.false_and]
    split_ifs with h1 <;> simp_all <;> (try constructor) <;> (try congr 1) <;> omega
  | true =>
    cases is_magic with
    | false =>
      simp only [hmg, Bool.true_and, Bool.false_eq_true, if_false, if_true]
      split_ifs with h1 <;> simp_all <;> (try constructor) <;> (try congr 1) <;> omega
    | true =>
      simp only [hmg, Bool.true_and, if_true]
      split_ifs with h1 h2 h2 <;> simp_all <;> (try constructor) <;>
        (try congr 1) <;> omega

/-! ### Concrete fixtures used by witnesses and counterexamples -/

/-- A single-element water mage (shape of `light_mage1`-style catalog
entries). -/
def waterMage : Character :=
  { id := "m1".toList, name := "mage".toList, elements := [.water], health := 25,
    energy := 15, defense := 2, attack := 2, ability := "heal".toList,
    description := [], is_active_ability := false }

/-- A pure-physical (non-mage) character. -/
def fighterChar : Character :=
  { id := "f1".toList, name := "fighter".toList, elements := [.physical],
    health := 30, energy := 0, defense := 3, attack := 4, ability := "slam".toList,
    description := [], is_active_ability := false }

/-! ### Claim theorems -/

/-- C2: for every nonnegative cost, `pay_cost` takes up to the cost from a
mage actor's energy first, then the remainder from the player's base mana (up
to its current value), and deducts any amount still remaining directly from
the actor's current HP; the full cost is always paid (the operation cannot
refuse for lack of resources — it succeeds or kills the actor). -/
theorem pay_cost_order_and_totality (cost : Int) (actor : CharacterState)
    (base_mana : Int) (hc : 0 ≤ cost) (he : 0 ≤ actor.cur_energy)
    (hm : 0 ≤ base_mana) :
    (pay_cost cost actor base_mana).2.1.cur_energy =
        actor.cur_energy -
          (if actor.character.is_mage then min actor.cur_energy cost else 0) ∧
    (pay_cost cost actor base_mana).2.2 =
        base_mana - payManaTaken cost actor base_mana ∧
    (pay_cost cost actor base_mana).2.1.cur_hp =
        actor.cur_hp - payHpTaken cost actor base_mana ∧
    0 ≤ payHpTaken cost actor base_mana ∧
    payEnergyTaken cost actor + payManaTaken cost actor base_mana +
        payHpTaken cost actor base_mana = cost ∧
    ((pay_cost cost actor base_mana).1 = true ∨
      (pay_cost cost actor base_mana).2.1.cur_hp ≤ 0) := by
  rw [pay_cost_eq cost actor base_mana hc he hm]
  refine ⟨rfl, rfl, rfl, ?_, ?_, ?_⟩
  · unfold payHpTaken payManaTaken payEnergyTaken
    split_ifs <;> omega
  · unfold payHpTaken
    omega
  · by_cases h : 0 < payHpTaken cost actor base_mana ∧
        actor.cur_hp - payHpTaken cost actor base_mana ≤ 0
    · right
      simpa using h.2
    · left
      simp
      omega

/-- C2 witness: paying cost 12 with a mage actor at energy 5 and base mana 20
leaves energy 0, base mana 13 and the actor's HP untouched. -/
theorem pay_cost_order_and_totality_witness :
    (pay_cost 12 ⟨waterMage, 10, 5, false, false⟩ 20).2.1.cur_energy = 0 ∧
    (pay_cost 12 ⟨waterMage, 10, 5, false, false⟩ 20).2.2 = 13 ∧
    (pay_cost 12 ⟨waterMage, 10, 5, false, false⟩ 20).2.1.cur_hp = 10 ∧
    (pay_cost 12 ⟨waterMage, 10, 5, false, false⟩ 20).1 = true := by
  have h := pay_cost_order_and_totality 12 ⟨waterMage, 10, 5, false, false⟩ 20
    (by decide) (by decide) (by decide)
  refine ⟨?_, ?_, ?_, ?_⟩
  · rw [h.1]; decide
  · rw [h.2.1]; decide
  · rw [h.2.2.1]; decide
  · rcases h.2.2.2.2.2 with h' | h'
    · exact h'
    · rw [h.2.2.1] at h'
      revert h'
      decide

/-- C10: `pay_cost` returns `False` exactly when the life-payment fallback
was exercised (a positive HP deduction) and left the actor's HP ≤ 0; even on
that `False` return, the energy, base-mana and HP deductions stand (the model
returns the mutated actor and mana unconditionally — no rollback). -/
theorem pay_cost_false_iff_killed (cost : Int) (actor : CharacterState)
    (base_mana : Int) (hc : 0 ≤ cost) (he : 0 ≤ actor.cur_energy)
    (hm : 0 ≤ base_mana) :
    ((pay_cost cost actor base_mana).1 = false ↔
      0 < payHpTaken cost actor base_mana ∧
        actor.cur_hp - payHpTaken cost actor base_mana ≤ 0) ∧
    ((pay_cost cost actor base_mana).1 = false →
      (pay_cost cost actor base_mana).2.1.cur_energy =
          actor.cur_energy - payEnergyTaken cost actor ∧
      (pay_cost cost actor base_mana).2.2 =
          base_mana - payManaTaken cost actor base_mana ∧
      (pay_cost cost actor base_mana).2.1.cur_hp =
          actor.cur_hp - payHpTaken cost actor base_mana ∧
      (pay_cost cost actor base_mana).2.1.cur_hp ≤ 0) := by
  rw [pay_cost_eq cost actor base_mana hc he hm]
  constructor
  · simp
  · intro hf
    refine ⟨rfl, rfl, rfl, ?_⟩
    simp only [decide_eq_false_iff_not, not_not] at hf
    simpa using hf.2

/-- C10 witness: cost 12 with energy 0 and base mana 3 pays 9 from HP; an
actor at 3 HP is killed, `pay_cost` returns `False`, and the deductions
(mana 3 → 0, HP 3 → −6) are still in place. -/
theorem pay_cost_false_iff_killed_witness :
    (pay_cost 12 ⟨waterMage, 3, 0, false, false⟩ 3).1 = false ∧
    (pay_cost 12 ⟨waterMage, 3, 0, false, false⟩ 3).2.2 = 0 ∧
    (pay_cost 12 ⟨waterMage, 3, 0, false, false⟩ 3).2.1.cur_hp = -6 := by
  have h := pay_cost_false_iff_killed 12 ⟨waterMage, 3, 0, false, false⟩ 3
    (by decide) (by decide) (by decide)
  have hf : (pay_cost 12 ⟨waterMage, 3, 0, false, false⟩ 3).1 = false :=
    h.1.mpr (by decide)
  have hmut := h.2 hf
  refine ⟨hf, ?_, ?_⟩
  · rw [hmut.2.1]; decide
  · rw [hmut.2.2.1]; decide

/-- C3: `take_damage` absorbs magic damage from a mage target's energy first
(up to the amount) and deducts only the remainder from HP; any other
target/damage combination deducts the full amount from HP; the resulting HP
is clamped at 0 and the magnitude below zero is returned as overflow
(overflow is 0 when HP does not go below 0). -/
theorem take_damage_absorb_clamp_overflow (cs : CharacterState) (damage : Int)
    (is_magic : Bool) (hd : 0 ≤ damage) (he : 0 ≤ cs.cur_energy) :
    (cs.take_damage damage is_magic).1.cur_energy =
        cs.cur_energy -
          (if cs.character.is_mage && is_magic then min cs.cur_energy damage
            else 0) ∧
    (cs.take_damage damage is_magic).1.cur_hp =
        max 0 (cs.cur_hp - (damage - absorbedEnergy cs damage is_magic)) ∧
    (cs.take_damage damage is_magic).2 =
        max 0 (-(cs.cur_hp - (damage - absorbedEnergy cs damage is_magic))) ∧
    (0 ≤ cs.cur_hp - (damage - absorbedEnergy cs damage is_magic) →
      (cs.take_damage damage is_magic).2 = 0) := by
  rw [take_damage_eq cs damage is_magic hd he]
  refine ⟨rfl, rfl, rfl, fun h => ?_⟩
  simp only
  omega

/-- C3 witness: a mage with energy 4 and HP 20 taking 10 magic damage ends
with energy 0, HP 14 (reduced by 6) and overflow 0. -/
theorem take_damage_absorb_clamp_overflow_witness :
    ((⟨waterMage, 20, 4, false, false⟩ : CharacterState).take_damage 10
        true).1.cur_energy = 0 ∧
    ((⟨waterMage, 20, 4, false, false⟩ : CharacterState).take_damage 10
        true).1.cur_hp = 14 ∧
    ((⟨waterMage, 20, 4, false, false⟩ : CharacterState).take_damage 10
        true).2 = 0 := by
  have h := take_damage_absorb_clamp_overflow ⟨waterMage, 20, 4, false, false⟩ 10
    true (by decide) (by decide)
  refine ⟨?_, ?_, ?_⟩
  · rw [h.1]; decide
  · rw [h.2.1]; decide
  · rw [h.2.2.1]; decide

/-- The per-turn energy regeneration does not change which exclusive-ability
cards are generated (it preserves each slot's character and HP). -/
theorem energy_update_preserves_abilityCards (l : List CharacterState) :
    (l.map (fun cs => if cs.character.is_mage then
        {cs with cur_energy := min cs.character.energy (cs.cur_energy + 5)}
      else cs)).filterMap (fun cs =>
        if cs.character.is_active_ability ∧ cs.cur_hp > 0 then
          some (abilityCard cs.character) else none) =
      l.filterMap (fun cs =>
        if cs.character.is_active_ability ∧ cs.cur_hp > 0 then
          some (abilityCard cs.character) else none) := by
  rw [List.filterMap_map]
  congr 1
  funext cs
  by_cases hm : cs.character.is_mage <;> simp [hm, Function.comp]

/-- C8: `start_turn` sets base mana to `min(30, base mana + 5 + bonus)`,
updates every mage's energy to `min(max energy, energy + 5)` while leaving
non-mage slots untouched, and moves exactly the top card of the deck into the
hand when the deck is non-empty (the deck is left empty, not an error,
otherwise).  The hand additionally receives the exclusive-ability cards the
method generates before drawing. -/
theorem start_turn_spec (p : PlayerBattleState) :
    p.start_turn.base_mana = min 30 (p.base_mana + 5 + p.extra_mana_per_turn) ∧
    (∀ i : Nat, p.start_turn.chars[i]? = (p.chars[i]?).map (fun cs =>
        if cs.character.is_mage then
          {cs with cur_energy := min cs.character.energy (cs.cur_energy + 5)}
        else cs)) ∧
    (p.deck = [] → p.start_turn.deck = [] ∧
      p.start_turn.hand = p.hand ++ abilityCards p) ∧
    (∀ c rest, p.deck = c :: rest → p.start_turn.deck = rest ∧
      p.start_turn.hand = p.hand ++ abilityCards p ++ [c]) := by
  obtain ⟨nm, bh, bm, chars, deck, hand, disc, extra⟩ := p
  cases deck with
  | nil =>
    refine ⟨rfl, ?_, ?_, ?_⟩
    · intro i
      simp [PlayerBattleState.start_turn, List.getElem?_map]
    · intro _
      refine ⟨rfl, ?_⟩
      simp only [PlayerBattleState.start_turn, abilityCards, List.filterMap_map]
      have hfun : ((fun cs : CharacterState =>
            if cs.character.is_active_ability = true ∧ cs.cur_hp > 0 then
              some (abilityCard cs.character) else none) ∘
          (fun cs : CharacterState =>
            if cs.character.is_mage = true then
              {cs with cur_energy := min cs.character.energy (cs.cur_energy + 5)}
            else cs)) =
          (fun cs : CharacterState =>
            if cs.character.is_active_ability = true ∧ cs.cur_hp > 0 then
              some (abilityCard cs.character) else none) := by
        funext cs
        by_cases hm : cs.character.is_mage <;> simp [Function.comp, hm]
      rw [hfun]
    · intro c rest h
      simp at h
  | cons c rest =>
    refine ⟨rfl, ?_, ?_, ?_⟩
    · intro i
      simp [PlayerBattleState.start_turn, List.getElem?_map]
    · intro h
      simp at h
    · intro c' rest' h
      obtain ⟨rfl, rfl⟩ := List.cons.injEq .. ▸ h
      refine ⟨rfl, ?_⟩
      simp only [PlayerBattleState.start_turn, abilityCards, List.filterMap_map]
      have hfun : ((fun cs : CharacterState =>
            if cs.character.is_active_ability = true ∧ cs.cur_hp > 0 then
              some (abilityCard cs.character) else none) ∘
          (fun cs : CharacterState =>
            if cs.character.is_mage = true then
              {cs with cur_energy := min cs.character.energy (cs.cur_energy + 5)}
            else cs)) =
          (fun cs : CharacterState =>
            if cs.character.is_active_ability = true ∧ cs.cur_hp > 0 then
              some (abilityCard cs.character) else none) := by
        funext cs
        by_cases hm : cs.character.is_mage <;> simp [Function.comp, hm]
      rw [hfun]

/-- C8 witness: a two-slot player (one mage at energy 6, one non-mage) with a
one-card deck; after `start_turn` the mana is capped at 30, the mage's energy
becomes 11, the non-mage is untouched, and the single deck card moves into
the hand. -/
theorem start_turn_spec_witness :
    (PlayerBattleState.start_turn
        ⟨"p".toList, 50, 28, [⟨waterMage, 25, 6, false, false⟩,
          ⟨fighterChar, 30, 0, false, false⟩],
          [⟨"c1".toList, [], [.water], 4, .common, [], 0, 0, 0⟩], [], [], 0⟩).base_mana
        = 30 ∧
    (PlayerBattleState.start_turn
        ⟨"p".toList, 50, 28, [⟨waterMage, 25, 6, false, false⟩,
          ⟨fighterChar, 30, 0, false, false⟩],
          [⟨"c1".toList, [], [.water], 4, .common, [], 0, 0, 0⟩], [], [], 0⟩).chars[0]?
        = some ⟨waterMage, 25, 11, false, false⟩ ∧
    (PlayerBattleState.start_turn
        ⟨"p".toList, 50, 28, [⟨waterMage, 25, 6, false, false⟩,
          ⟨fighterChar, 30, 0, false, false⟩],
          [⟨"c1".toList, [], [.water], 4, .common, [], 0, 0, 0⟩], [], [], 0⟩).chars[1]?
        = some ⟨fighterChar, 30, 0, false, false⟩ ∧
    (PlayerBattleState.start_turn
        ⟨"p".toList, 50, 28, [⟨waterMage, 25, 6, false, false⟩,
          ⟨fighterChar, 30, 0, false, false⟩],
          [⟨"c1".toList, [], [.water], 4, .common, [], 0, 0, 0⟩], [], [], 0⟩).deck = [] ∧
    (PlayerBattleState.start_turn
        ⟨"p".toList, 50, 28, [⟨waterMage, 25, 6, false, false⟩,
          ⟨fighterChar, 30, 0, false, false⟩],
          [⟨"c1".toList, [], [.water], 4, .common, [], 0, 0, 0⟩], [], [], 0⟩).hand
        = [⟨"c1".toList, [], [.water], 4, .common, [], 0, 0, 0⟩] := by
  have h := start_turn_spec
    ⟨"p".toList, 50, 28, [⟨waterMage, 25, 6, false, false⟩,
      ⟨fighterChar, 30, 0, false, false⟩],
      [⟨"c1".toList, [], [.water], 4, .common, [], 0, 0, 0⟩], [], [], 0⟩
  obtain ⟨h1, h2, _, h4⟩ := h
  have hd := h4 ⟨"c1".toList, [], [.water], 4, .common, [], 0, 0, 0⟩ [] rfl
  refine ⟨by rw [h1]; decide, ?_, ?_, hd.1, ?_⟩
  · rw [h2 0]; decide
  · rw [h2 1]; decide
  · rw [hd.2]; decide

/-- A pure-physical (non-mage) character of the console engine. -/
def mainFighter : MainCharacter :=
  { id := "f1".toList, name := "fighter".toList, elements := [.physical],
    health := 30, energy := 0, ability := [], description := [],
    passive_ability := [], passive_description := [] }

/-- A physical card with no registered effect. -/
def plainPhysCard : Card :=
  { id := "pc".toList, name := [], elements := [.physical], cost := 3,
    rarity := .common, description := [] }

/-- C5 counterexample: in the console engine (`main.py`), a non-mage actor
playing a physical card that shares its element is dealt damage
`max(1, cost) * 2 = 6`, while the claimed formula (multiplier 2 only when the
actor is a mage AND shares an element) predicts `3`: the source doubles on an
element match alone, without the mage requirement. -/
theorem computeDamageMain_not_mage_gated :
    computeDamageMain plainPhysCard mainFighter = 6 ∧
    isMageMain mainFighter = false ∧
    computeDamageMain plainPhysCard mainFighter ≠
      applyCardEffect plainPhysCard.id ((max 1 plainPhysCard.cost) *
        (if isMageMain mainFighter = true ∧
            plainPhysCard.elements.any
              (fun e => mainFighter.elements.contains e) = true
          then 2 else 1)) := by
  refine ⟨by decide, by decide, by decide⟩

/-- C5 amended: the two engines diverge.  The console engine (`main.py`)
multiplies `max(1, cost)` by 2 whenever the card shares an element with the
actor (mage or not) and then applies the registered effect transform; the GUI
engine (`main_gui.py`) multiplies by 2 exactly when the actor is a mage AND
shares an element, and applies no effect transform at all. -/
theorem computeDamage_both_engines (card : Card) (mc : MainCharacter)
    (gc : Character) :
    computeDamageMain card mc =
      applyCardEffect card.id ((max 1 card.cost) *
        (if ∃ e ∈ card.elements, e ∈ mc.elements then 2 else 1)) ∧
    computeDamageGui card gc =
      (max 1 card.cost) *
        (if (∃ e ∈ card.elements, e ∈ gc.elements) ∧ gc.is_mage = true then 2
          else 1) := by
  have hmainIff : (card.elements.any (fun e => mc.elements.contains e) = true) ↔
      ∃ e ∈ card.elements, e ∈ mc.elements := by
    simp [List.any_eq_true]
  have hguiIff : (card.elements.any (fun e => gc.elements.contains e) = true) ↔
      ∃ e ∈ card.elements, e ∈ gc.elements := by
    simp [List.any_eq_true]
  constructor
  · unfold computeDamageMain
    by_cases h : ∃ e ∈ card.elements, e ∈ mc.elements
    · rw [if_pos h]
      simp [hmainIff.mpr h, h]
    · rw [if_neg h]
      have hb : (card.elements.any fun e => mc.elements.contains e) = false :=
        Bool.eq_false_iff.mpr (fun hx => h (hmainIff.mp hx))
      simp [hb, h]
  · unfold computeDamageGui
    by_cases hm : gc.is_mage = true
    · by_cases h : ∃ e ∈ card.elements, e ∈ gc.elements
      · rw [if_pos ⟨h, hm⟩]
        simp [hguiIff.mpr h, hm, h]
      · rw [if_neg (fun hc => h hc.1)]
        have hb : (card.elements.any fun e => gc.elements.contains e) = false :=
          Bool.eq_false_iff.mpr (fun hx => h (hguiIff.mp hx))
        simp [hb, h]
    · rw [if_neg (fun hc => hm hc.2)]
      have hmf : gc.is_mage = false := by simpa using hm
      simp [hmf]

/-- A console-engine player state whose base has fallen to 0. -/
def deadMainP : MainPlayerState := { name := "p".toList, base_hp := 0 }

/-- A console-engine player state with a healthy base. -/
def aliveMainP : MainPlayerState := { name := "q".toList, base_hp := 50 }

/-- A GUI player state whose base has fallen to 0. -/
def deadGuiP : PlayerBattleState := { name := "p".toList, base_hp := 0 }

/-- A GUI player state with a healthy base. -/
def aliveGuiP : PlayerBattleState := { name := "q".toList, base_hp := 50 }

/-- C6 counterexample: when both bases are ≤ 0 simultaneously, both engines
return exactly the same outcome as "only player 1's base fell" — player 2 is
silently declared the winner (player 1's base is checked first); no distinct
draw/undefined outcome exists in either codomain. -/
theorem check_winner_double_zero_picks_p2 :
    check_winner deadMainP deadMainP = 2 ∧
    check_winner deadMainP aliveMainP = 2 ∧
    check_winner deadMainP deadMainP = check_winner deadMainP aliveMainP ∧
    play_card_winner deadGuiP deadGuiP = some 2 ∧
    play_card_winner deadGuiP aliveGuiP = some 2 := by
  refine ⟨by decide, by decide, by decide, by decide, by decide⟩

/-- C6 amended: in both engines the opponent wins whenever exactly one base
is ≤ 0 and no winner is reported while both are > 0; when both bases are ≤ 0
in the same check, player 2 is declared the winner (player 1's base is tested
first) — there is no distinct draw outcome. -/
theorem check_winner_cases (p1 p2 : MainPlayerState)
    (q1 q2 : PlayerBattleState) :
    (0 < p1.base_hp ∧ 0 < p2.base_hp → check_winner p1 p2 = 0) ∧
    (p1.base_hp ≤ 0 → check_winner p1 p2 = 2) ∧
    (0 < p1.base_hp ∧ p2.base_hp ≤ 0 → check_winner p1 p2 = 1) ∧
    (0 < q1.base_hp ∧ 0 < q2.base_hp → play_card_winner q1 q2 = none) ∧
    (q1.base_hp ≤ 0 → play_card_winner q1 q2 = some 2) ∧
    (0 < q1.base_hp ∧ q2.base_hp ≤ 0 → play_card_winner q1 q2 = some 1) := by
  unfold check_winner play_card_winner
  refine ⟨fun h => ?_, fun h => ?_, fun h => ?_, fun h => ?_, fun h => ?_,
    fun h => ?_⟩ <;> split_ifs <;> first | rfl | omega

/-- C6 amended witness: concrete evaluations for each case, including the
double-zero case resolved in player 2's favor. -/
theorem check_winner_cases_witness :
    check_winner aliveMainP aliveMainP = 0 ∧
    check_winner deadMainP deadMainP = 2 ∧
    check_winner aliveMainP deadMainP = 1 ∧
    play_card_winner aliveGuiP aliveGuiP = none ∧
    play_card_winner deadGuiP deadGuiP = some 2 ∧
    play_card_winner aliveGuiP deadGuiP = some 1 := by
  refine ⟨(check_winner_cases aliveMainP aliveMainP aliveGuiP aliveGuiP).1
      (by decide),
    (check_winner_cases deadMainP deadMainP deadGuiP deadGuiP).2.1 (by decide),
    (check_winner_cases aliveMainP deadMainP aliveGuiP deadGuiP).2.2.1
      (by decide),
    (check_winner_cases aliveMainP aliveMainP aliveGuiP aliveGuiP).2.2.2.1
      (by decide),
    (check_winner_cases deadMainP deadMainP deadGuiP deadGuiP).2.2.2.2.1
      (by decide),
    (check_winner_cases aliveMainP deadMainP aliveGuiP deadGuiP).2.2.2.2.2
      (by decide)⟩

/-- Effective HP damage of a console-engine hit (after energy absorption). -/
def mainHpDmg (cs0 : MainCharState) (dmg : Int) (m : Bool) : Int :=
  dmg - (if m && isMageMain cs0.character then min cs0.cur_energy dmg else 0)

/-- Effective HP damage of a GUI hit (after energy absorption). -/
def guiHpDmg (cs0 : CharacterState) (dmg : Int) (m : Bool) : Int :=
  dmg - absorbedEnergy cs0 dmg m

set_option maxHeartbeats 1600000 in
theorem c4_main_promote (p : MainPlayerState) (idx : Nat) (dmg : Int) (m : Bool)
    (cs0 r : MainCharState) (h0 : p.chars[idx]? = some cs0) (hidx : idx < 2)
    (hd : 0 ≤ dmg) (he : 0 ≤ cs0.cur_energy) (h3 : p.chars.length = 3)
    (h2 : p.chars[2]? = some r) (hlive : 0 < r.cur_hp)
    (hkill : cs0.cur_hp - mainHpDmg cs0 dmg m ≤ 0) :
    (apply_damage_to_char p idx dmg m).chars.length = 2 ∧
    (apply_damage_to_char p idx dmg m).chars[idx]? = some r ∧
    (apply_damage_to_char p idx dmg m).base_hp =
      p.base_hp + (cs0.cur_hp - mainHpDmg cs0 dmg m) := by
  obtain ⟨a, b, c, hc⟩ := List.length_eq_three.mp h3
  rw [hc] at h0 h2
  simp only [List.getElem?_cons_zero, List.getElem?_cons_succ,
    Option.some.injEq] at h0 h2
  subst h2
  unfold mainHpDmg at hkill ⊢
  unfold apply_damage_to_char
  rw [hc]
  interval_cases idx
  · simp only [List.getElem?_cons_zero, Option.some.injEq] at h0
    obtain rfl := h0
    simp only [List.getElem?_cons_zero]
    cases hcond : (m && isMageMain a.character) <;>
      simp only [hcond, Bool.false_eq_true, if_true, if_false] <;>
      split_ifs <;>
      simp_all <;>
      omega
  · simp only [List.getElem?_cons_zero, List.getElem?_cons_succ,
      Option.some.injEq] at h0
    obtain rfl := h0
    simp only [List.getElem?_cons_zero, List.getElem?_cons_succ]
    cases hcond : (m && isMageMain b.character) <;>
      simp only [hcond, Bool.false_eq_true, if_true, if_false] <;>
      split_ifs <;>
      simp_all <;>
      omega

set_option maxHeartbeats 1600000 in
theorem c4_main_no_reserve (p : MainPlayerState) (idx : Nat) (dmg : Int)
    (m : Bool) (cs0 : MainCharState) (h0 : p.chars[idx]? = some cs0)
    (hidx : idx < 2) (hd : 0 ≤ dmg) (he : 0 ≤ cs0.cur_energy)
    (h2 : p.chars.length = 2)
    (hkill : cs0.cur_hp - mainHpDmg cs0 dmg m ≤ 0) :
    (apply_damage_to_char p idx dmg m).chars.length = 2 ∧
    (∃ c', (apply_damage_to_char p idx dmg m).chars[idx]? = some c' ∧
      c'.cur_hp = 0) ∧
    (apply_damage_to_char p idx dmg m).base_hp =
      p.base_hp + (cs0.cur_hp - mainHpDmg cs0 dmg m) := by
  obtain ⟨a, b, hc⟩ := List.length_eq_two.mp h2
  rw [hc] at h0
  unfold mainHpDmg at hkill ⊢
  unfold apply_damage_to_char
  rw [hc]
  interval_cases idx
  · simp only [List.getElem?_cons_zero, Option.some.injEq] at h0
    obtain rfl := h0
    simp only [List.getElem?_cons_zero]
    cases hcond : (m && isMageMain a.character) <;>
      simp only [hcond, Bool.false_eq_true, if_true, if_false] <;>
      split_ifs <;>
      simp_all <;>
      omega
  · simp only [List.getElem?_cons_zero, List.getElem?_cons_succ,
      Option.some.injEq] at h0
    obtain rfl := h0
    simp only [List.getElem?_cons_zero, List.getElem?_cons_succ]
    cases hcond : (m && isMageMain b.character) <;>
      simp only [hcond, Bool.false_eq_true, if_true, if_false] <;>
      split_ifs <;>
      simp_all <;>
      omega

set_option maxHeartbeats 1600000 in
theorem c4_gui_promote (opp : PlayerBattleState) (tidx : Nat) (dmg : Int)
    (m : Bool) (cs0 r : CharacterState) (h0 : opp.chars[tidx]? = some cs0)
    (hidx : tidx < 2) (hd : 0 ≤ dmg) (he : 0 ≤ cs0.cur_energy)
    (h3 : opp.chars.length = 3) (h2 : opp.chars[2]? = some r)
    (hlive : 0 < r.cur_hp)
    (hkill : cs0.cur_hp - guiHpDmg cs0 dmg m ≤ 0) :
    (resolveCharHit opp tidx dmg m).chars.length = 2 ∧
    (resolveCharHit opp tidx dmg m).chars[tidx]? = some r ∧
    (resolveCharHit opp tidx dmg m).base_hp =
      opp.base_hp + (cs0.cur_hp - guiHpDmg cs0 dmg m) := by
  obtain ⟨a, b, c, hc⟩ := List.length_eq_three.mp h3
  rw [hc] at h0 h2
  simp only [List.getElem?_cons_zero, List.getElem?_cons_succ,
    Option.some.injEq] at h0 h2
  subst h2
  unfold guiHpDmg at hkill ⊢
  unfold resolveCharHit
  rw [hc]
  interval_cases tidx
  · simp only [List.getElem?_cons_zero, Option.some.injEq] at h0
    obtain rfl := h0
    simp only [List.getElem?_cons_zero]
    rw [take_damage_eq a dmg m hd he]
    simp only [PlayerBattleState.has_reserve]
    split_ifs <;>
      simp_all <;>
      omega
  · simp only [List.getElem?_cons_zero, List.getElem?_cons_succ,
      Option.some.injEq] at h0
    obtain rfl := h0
    simp only [List.getElem?_cons_zero, List.getElem?_cons_succ]
    rw [take_damage_eq b dmg m hd he]
    simp only [PlayerBattleState.has_reserve]
    split_ifs <;>
      simp_all <;>
      omega

set_option maxHeartbeats 1600000 in
theorem c4_gui_no_reserve (opp : PlayerBattleState) (tidx : Nat) (dmg : Int)
    (m : Bool) (cs0 : CharacterState) (h0 : opp.chars[tidx]? = some cs0)
    (hidx : tidx < 2) (hd : 0 ≤ dmg) (he : 0 ≤ cs0.cur_energy)
    (h2 : opp.chars.length = 2)
    (hkill : cs0.cur_hp - guiHpDmg cs0 dmg m ≤ 0) :
    (resolveCharHit opp tidx dmg m).chars.length = 2 ∧
    (∃ c', (resolveCharHit opp tidx dmg m).chars[tidx]? = some c' ∧
      c'.cur_hp = 0) ∧
    (resolveCharHit opp tidx dmg m).base_hp =
      opp.base_hp + (cs0.cur_hp - guiHpDmg cs0 dmg m) := by
  obtain ⟨a, b, hc⟩ := List.length_eq_two.mp h2
  rw [hc] at h0
  unfold guiHpDmg at hkill ⊢
  unfold resolveCharHit
  rw [hc]
  interval_cases tidx
  · simp only [List.getElem?_cons_zero, Option.some.injEq] at h0
    obtain rfl := h0
    simp only [List.getElem?_cons_zero]
    rw [take_damage_eq a dmg m hd he]
    simp only [PlayerBattleState.has_reserve]
    split_ifs <;>
      simp_all <;>
      omega
  · simp only [List.getElem?_cons_zero, List.getElem?_cons_succ,
      Option.some.injEq] at h0
    obtain rfl := h0
    simp only [List.getElem?_cons_zero, List.getElem?_cons_succ]
    rw [take_damage_eq b dmg m hd he]
    simp only [PlayerBattleState.has_reserve]
    split_ifs <;>
      simp_all <;>
      omega

/-- C4: in both engines, when an active-slot character is killed: with a live
reserve (slot 2) present the reserve replaces the dead slot and the reserve
slot is removed (the list shrinks from three to two); with no reserve the
dead slot's HP stays clamped at 0 and the list length is unchanged; and the
overflow of the killing blow, when positive, is subtracted from the defending
player's base HP.  (`mainHpDmg`/`guiHpDmg` is the part of the blow reaching
HP after any energy absorption; the killing-blow hypothesis is
`cur_hp - hpDmg <= 0`, and the base-HP equation
`base' = base + (cur_hp - hpDmg)` subtracts exactly the positive overflow.) -/
theorem death_promotion_and_overflow :
    (∀ (p : MainPlayerState) (idx : Nat) (dmg : Int) (m : Bool)
        (cs0 r : MainCharState), p.chars[idx]? = some cs0 → idx < 2 →
      0 ≤ dmg → 0 ≤ cs0.cur_energy → p.chars.length = 3 →
      p.chars[2]? = some r → 0 < r.cur_hp →
      cs0.cur_hp - mainHpDmg cs0 dmg m ≤ 0 →
      (apply_damage_to_char p idx dmg m).chars.length = 2 ∧
      (apply_damage_to_char p idx dmg m).chars[idx]? = some r ∧
      (apply_damage_to_char p idx dmg m).base_hp =
        p.base_hp + (cs0.cur_hp - mainHpDmg cs0 dmg m)) ∧
    (∀ (p : MainPlayerState) (idx : Nat) (dmg : Int) (m : Bool)
        (cs0 : MainCharState), p.chars[idx]? = some cs0 → idx < 2 →
      0 ≤ dmg → 0 ≤ cs0.cur_energy → p.chars.length = 2 →
      cs0.cur_hp - mainHpDmg cs0 dmg m ≤ 0 →
      (apply_damage_to_char p idx dmg m).chars.length = 2 ∧
      (∃ c', (apply_damage_to_char p idx dmg m).chars[idx]? = some c' ∧
        c'.cur_hp = 0) ∧
      (apply_damage_to_char p idx dmg m).base_hp =
        p.base_hp + (cs0.cur_hp - mainHpDmg cs0 dmg m)) ∧
    (∀ (opp : PlayerBattleState) (tidx : Nat) (dmg : Int) (m : Bool)
        (cs0 r : CharacterState), opp.chars[tidx]? = some cs0 → tidx < 2 →
      0 ≤ dmg → 0 ≤ cs0.cur_energy → opp.chars.length = 3 →
      opp.chars[2]? = some r → 0 < r.cur_hp →
      cs0.cur_hp - guiHpDmg cs0 dmg m ≤ 0 →
      (resolveCharHit opp tidx dmg m).chars.length = 2 ∧
      (resolveCharHit opp tidx dmg m).chars[tidx]? = some r ∧
      (resolveCharHit opp tidx dmg m).base_hp =
        opp.base_hp + (cs0.cur_hp - guiHpDmg cs0 dmg m)) ∧
    (∀ (opp : PlayerBattleState) (tidx : Nat) (dmg : Int) (m : Bool)
        (cs0 : CharacterState), opp.chars[tidx]? = some cs0 → tidx < 2 →
      0 ≤ dmg → 0 ≤ cs0.cur_energy → opp.chars.length = 2 →
      cs0.cur_hp - guiHpDmg cs0 dmg m ≤ 0 →
      (resolveCharHit opp tidx dmg m).chars.length = 2 ∧
      (∃ c', (resolveCharHit opp tidx dmg m).chars[tidx]? = some c' ∧
        c'.cur_hp = 0) ∧
      (resolveCharHit opp tidx dmg m).base_hp =
        opp.base_hp + (cs0.cur_hp - guiHpDmg cs0 dmg m)) :=
  ⟨fun p idx dmg m cs0 r h0 h1 h2 h3 h4 h5 h6 h7 =>
      c4_main_promote p idx dmg m cs0 r h0 h1 h2 h3 h4 h5 h6 h7,
    fun p idx dmg m cs0 h0 h1 h2 h3 h4 h5 =>
      c4_main_no_reserve p idx dmg m cs0 h0 h1 h2 h3 h4 h5,
    fun opp tidx dmg m cs0 r h0 h1 h2 h3 h4 h5 h6 h7 =>
      c4_gui_promote opp tidx dmg m cs0 r h0 h1 h2 h3 h4 h5 h6 h7,
    fun opp tidx dmg m cs0 h0 h1 h2 h3 h4 h5 =>
      c4_gui_no_reserve opp tidx dmg m cs0 h0 h1 h2 h3 h4 h5⟩

/-- Console-engine three-slot lineup used by the C4 witness. -/
def c4MainP : MainPlayerState :=
  { name := "p".toList, base_hp := 50, base_mana := 30,
    chars := [⟨mainFighter, 5, 0⟩, ⟨mainFighter, 30, 0⟩, ⟨mainFighter, 10, 0⟩] }

/-- Console-engine two-slot lineup used by the C4 witness. -/
def c4MainP2 : MainPlayerState :=
  { name := "p".toList, base_hp := 50, base_mana := 30,
    chars := [⟨mainFighter, 5, 0⟩, ⟨mainFighter, 30, 0⟩] }

/-- GUI three-slot lineup used by the C4 witness. -/
def c4GuiP : PlayerBattleState :=
  { name := "p".toList, base_hp := 50,
    chars := [⟨fighterChar, 5, 0, false, false⟩, ⟨fighterChar, 30, 0, false, false⟩,
      ⟨fighterChar, 10, 0, false, false⟩] }

/-- GUI two-slot lineup used by the C4 witness. -/
def c4GuiP2 : PlayerBattleState :=
  { name := "p".toList, base_hp := 50,
    chars := [⟨fighterChar, 5, 0, false, false⟩, ⟨fighterChar, 30, 0, false, false⟩] }

/-- C4 witness: an 8-damage physical blow on a 5-HP front character.  With a
live 10-HP reserve the reserve is promoted and the list shrinks to two; with
no reserve the slot stays at 0 HP; in all cases the 3 overflow damage reaches
the base (50 → 47). -/
theorem death_promotion_and_overflow_witness :
    ((apply_damage_to_char c4MainP 0 8 false).chars.length = 2 ∧
      (apply_damage_to_char c4MainP 0 8 false).chars[0]? =
        some ⟨mainFighter, 10, 0⟩ ∧
      (apply_damage_to_char c4MainP 0 8 false).base_hp = 47) ∧
    ((apply_damage_to_char c4MainP2 0 8 false).chars.length = 2 ∧
      (∃ c', (apply_damage_to_char c4MainP2 0 8 false).chars[0]? = some c' ∧
        c'.cur_hp = 0) ∧
      (apply_damage_to_char c4MainP2 0 8 false).base_hp = 47) ∧
    ((resolveCharHit c4GuiP 0 8 false).chars.length = 2 ∧
      (resolveCharHit c4GuiP 0 8 false).chars[0]? =
        some ⟨fighterChar, 10, 0, false, false⟩ ∧
      (resolveCharHit c4GuiP 0 8 false).base_hp = 47) ∧
    ((resolveCharHit c4GuiP2 0 8 false).chars.length = 2 ∧
      (∃ c', (resolveCharHit c4GuiP2 0 8 false).chars[0]? = some c' ∧
        c'.cur_hp = 0) ∧
      (resolveCharHit c4GuiP2 0 8 false).base_hp = 47) := by
  obtain ⟨hA, hB, hC, hD⟩ := death_promotion_and_overflow
  have a1 := hA c4MainP 0 8 false ⟨mainFighter, 5, 0⟩ ⟨mainFighter, 10, 0⟩
    (by decide) (by decide) (by decide) (by decide) (by decide) (by decide)
    (by decide) (by decide)
  have a2 := hB c4MainP2 0 8 false ⟨mainFighter, 5, 0⟩
    (by decide) (by decide) (by decide) (by decide) (by decide) (by decide)
  have a3 := hC c4GuiP 0 8 false ⟨fighterChar, 5, 0, false, false⟩
    ⟨fighterChar, 10, 0, false, false⟩
    (by decide) (by decide) (by decide) (by decide) (by decide) (by decide)
    (by decide) (by decide)
  have a4 := hD c4GuiP2 0 8 false ⟨fighterChar, 5, 0, false, false⟩
    (by decide) (by decide) (by decide) (by decide) (by decide) (by decide)
  refine ⟨⟨a1.1, a1.2.1, ?_⟩, ⟨a2.1, a2.2.1, ?_⟩, ⟨a3.1, a3.2.1, ?_⟩,
    ⟨a4.1, a4.2.1, ?_⟩⟩
  · rw [a1.2.2]; decide
  · rw [a2.2.2]; decide
  · rw [a3.2.2]; decide
  · rw [a4.2.2]; decide

/-- A card carrying both the Physical and Fire elements. -/
def mixedCard : Card :=
  { id := "mx".toList, name := [], elements := [.physical, .fire], cost := 5,
    rarity := .common, description := [] }

/-- A water-only (non-physical) card. -/
def waterCard : Card :=
  { id := "wc".toList, name := [], elements := [.water], cost := 4,
    rarity := .common, description := [] }

def c7P1 : PlayerBattleState :=
  { name := "p".toList, chars := [⟨fighterChar, 20, 0, false, false⟩],
    hand := [mixedCard] }

def c7P2 : PlayerBattleState := { name := "q".toList }

def c7Bs : BattleSceneState :=
  { player1 := c7P1, player2 := c7P2, selected_hand_index := 0,
    selected_actor_index := 0, selected_target := some ['b'] }

/-- C7 counterexample: `play_card` lets a non-mage play a card whose element
set is `[Physical, Fire]` — not exactly `{Physical}` — because the source only
tests membership of the Physical element.  The play goes through (the
opponent's base drops 50 → 45) instead of being rejected. -/
theorem play_card_permits_mixed_physical_card :
    mixedCard.elements ≠ [Element.physical] ∧
    fighterChar.is_mage = false ∧
    (play_card c7Bs).map (fun bs' => bs'.player2.base_hp) = some 45 ∧
    play_card c7Bs ≠ some c7Bs := by
  refine ⟨by decide, by decide, by decide, by decide⟩

theorem play_card_reject_non_physical (bs : BattleSceneState) (card : Card) (actor : CharacterState)
    (hsel : ¬(bs.selected_hand_index < 0 ∨ bs.selected_actor_index < 0 ∨
      bs.selected_target = none))
    (hcard : (if bs.current_turn = 0 then bs.player1 else
      bs.player2).hand[bs.selected_hand_index.toNat]? = some card)
    (hactor : (if bs.current_turn = 0 then bs.player1 else
      bs.player2).chars[bs.selected_actor_index.toNat]? = some actor)
    (hatk : actor.can_attack = true)
    (hmage : actor.character.is_mage = false)
    (hphys : Element.physical ∉ card.elements) :
    play_card bs = some bs := by
  unfold play_card
  rw [if_neg hsel]
  simp only []
  rw [hcard, hactor]
  simp only []
  rw [if_neg (fun h => h hatk)]
  rw [if_pos ⟨by simp [hmage], by simpa using hphys⟩]

theorem play_card_permit_physical (bs : BattleSceneState) (card : Card) (actor : CharacterState)
    (hsel : ¬(bs.selected_hand_index < 0 ∨ bs.selected_actor_index < 0 ∨
      bs.selected_target = none))
    (hcard : (if bs.current_turn = 0 then bs.player1 else
      bs.player2).hand[bs.selected_hand_index.toNat]? = some card)
    (hactor : (if bs.current_turn = 0 then bs.player1 else
      bs.player2).chars[bs.selected_actor_index.toNat]? = some actor)
    (hatk : actor.can_attack = true)
    (hphys : Element.physical ∈ card.elements)
    (htarget : bs.selected_target = some ['b']) :
    ∃ bs', play_card bs = some bs' ∧
      (if bs.current_turn = 0 then bs'.player2.base_hp else bs'.player1.base_hp) =
        (if bs.current_turn = 0 then bs.player2.base_hp else bs.player1.base_hp) -
          computeDamageGui card actor.character := by
  have hb : card.elements.contains Element.physical = true := by simpa using hphys
  unfold play_card
  rw [if_neg hsel]
  simp only []
  rw [hcard, hactor]
  simp only []
  rw [if_neg (fun h => h hatk)]
  rw [if_neg (fun hc => hc.2 hb)]
  simp only [hb, if_true, htarget]
  rw [if_neg (by norm_num : ¬((0:Int) > 0))]
  refine ⟨_, rfl, ?_⟩
  by_cases hturn : bs.current_turn = 0 <;> simp only [hturn, if_true, if_false] <;>
    split_ifs <;> simp

/-- C7 amended: `play_card` gates a non-mage actor on the card *containing*
the Physical element, not on the element set being exactly `{Physical}`.
A non-mage's play of a card without Physical is rejected with the whole
battle state unchanged; any play of a Physical-containing card (cost 0)
passes the wield check and, targeting the base, lands its damage. -/
theorem play_card_wield_rule :
    (∀ (bs : BattleSceneState) (card : Card) (actor : CharacterState),
      ¬(bs.selected_hand_index < 0 ∨ bs.selected_actor_index < 0 ∨
        bs.selected_target = none) →
      (if bs.current_turn = 0 then bs.player1 else
        bs.player2).hand[bs.selected_hand_index.toNat]? = some card →
      (if bs.current_turn = 0 then bs.player1 else
        bs.player2).chars[bs.selected_actor_index.toNat]? = some actor →
      actor.can_attack = true → actor.character.is_mage = false →
      Element.physical ∉ card.elements →
      play_card bs = some bs) ∧
    (∀ (bs : BattleSceneState) (card : Card) (actor : CharacterState),
      ¬(bs.selected_hand_index < 0 ∨ bs.selected_actor_index < 0 ∨
        bs.selected_target = none) →
      (if bs.current_turn = 0 then bs.player1 else
        bs.player2).hand[bs.selected_hand_index.toNat]? = some card →
      (if bs.current_turn = 0 then bs.player1 else
        bs.player2).chars[bs.selected_actor_index.toNat]? = some actor →
      actor.can_attack = true → Element.physical ∈ card.elements →
      bs.selected_target = some ['b'] →
      ∃ bs', play_card bs = some bs' ∧
        (if bs.current_turn = 0 then bs'.player2.base_hp
          else bs'.player1.base_hp) =
          (if bs.current_turn = 0 then bs.player2.base_hp
            else bs.player1.base_hp) - computeDamageGui card actor.character) :=
  ⟨fun bs card actor h1 h2 h3 h4 h5 h6 =>
      play_card_reject_non_physical bs card actor h1 h2 h3 h4 h5 h6,
    fun bs card actor h1 h2 h3 h4 h5 h6 =>
      play_card_permit_physical bs card actor h1 h2 h3 h4 h5 h6⟩

/-- Player holding only a water card, fronted by the non-mage fighter. -/
def c7P1Reject : PlayerBattleState :=
  { name := "p".toList, chars := [⟨fighterChar, 20, 0, false, false⟩],
    hand := [waterCard] }

/-- Scene in which the non-mage front character holds only a water card. -/
def c7BsReject : BattleSceneState :=
  { player1 := c7P1Reject, player2 := c7P2, selected_hand_index := 0,
    selected_actor_index := 0, selected_target := some ['b'] }

/-- C7 amended witness: the fighter's water-card play is rejected with the
state unchanged, while the mixed Physical+Fire card is permitted and damages
the opposing base. -/
theorem play_card_wield_rule_witness :
    play_card c7BsReject = some c7BsReject ∧
    (∃ bs', play_card c7Bs = some bs' ∧
      bs'.player2.base_hp = c7Bs.player2.base_hp -
        computeDamageGui mixedCard fighterChar) := by
  obtain ⟨hrej, hper⟩ := play_card_wield_rule
  constructor
  · exact hrej c7BsReject waterCard ⟨fighterChar, 20, 0, false, false⟩
      (by decide) (by decide) (by decide) (by decide) (by decide) (by decide)
  · obtain ⟨bs', hb1, hb2⟩ := hper c7Bs mixedCard
      ⟨fighterChar, 20, 0, false, false⟩
      (by decide) (by decide) (by decide) (by decide) (by decide) (by decide)
    exact ⟨bs', hb1, by simpa using hb2⟩


/-! ### C1 and C9: deck-code round trip and import error handling -/

/-- The shape of every `_update_deck_code` payload:
`name;deckTypeInt;charIds;cardIds;limit;` with comma-joined id lists. -/
def rawPayload (name : Str) (dtInt : Int) (charIds cardIds : List Str)
    (limit : Int) : Str :=
  name ++ ';' :: (intToStr dtInt ++ ';' :: (joinWith [','] charIds ++ ';' ::
    (joinWith [','] cardIds ++ ';' :: (intToStr limit ++ [';']))))

/-- Splitting a raw payload on `;` recovers the six fields. -/
theorem splitOnChar_rawPayload (name : Str) (dtInt : Int)
    (charIds cardIds : List Str) (limit : Int)
    (hname : cleanStr name)
    (hchars : ∀ i ∈ charIds, cleanStr i)
    (hcards : ∀ i ∈ cardIds, cleanStr i) :
    splitOnChar ';' (rawPayload name dtInt charIds cardIds limit) =
      [name, intToStr dtInt, joinWith [','] charIds, joinWith [','] cardIds,
        intToStr limit, []] := by
  unfold rawPayload
  rw [splitOnChar_append_sep _ (fun hc => (hname ';' hc).1 rfl)]
  rw [splitOnChar_append_sep _ (intToStr_no_delim _).1]
  rw [splitOnChar_append_sep _ (joinWith_comma_no_semi hchars)]
  rw [splitOnChar_append_sep _ (joinWith_comma_no_semi hcards)]
  have : intToStr limit ++ [';'] = intToStr limit ++ ';' :: [] := rfl
  rw [this, splitOnChar_append_sep _ (intToStr_no_delim _).1]
  rfl

/-- A raw payload built from clean components contains no `|`. -/
theorem rawPayload_no_pipe (name : Str) (dtInt : Int)
    (charIds cardIds : List Str) (limit : Int)
    (hname : cleanStr name)
    (hchars : ∀ i ∈ charIds, cleanStr i)
    (hcards : ∀ i ∈ cardIds, cleanStr i) :
    '|' ∉ rawPayload name dtInt charIds cardIds limit := by
  intro hc
  unfold rawPayload at hc
  simp only [List.mem_append, List.mem_cons] at hc
  rcases hc with h | h | h | h | h | h | h | h | h | h | h
  · exact (hname '|' h).2.2 rfl
  · exact absurd h (by decide)
  · exact (intToStr_no_delim _).2.2 h
  · exact absurd h (by decide)
  · exact joinWith_comma_no_pipe hchars h
  · exact absurd h (by decide)
  · exact joinWith_comma_no_pipe hcards h
  · exact absurd h (by decide)
  · exact (intToStr_no_delim _).2.2 h
  · exact absurd h (by decide)
  · simp at h

/-- Master import lemma: importing the encoded raw payload of a valid deck
type and clean non-empty ids succeeds, looking every id up in the supplied
catalogs (ids that match nothing are skipped by the `filterMap`). -/
theorem import_rawPayload (name : Str) (dt : DeckType)
    (charIds cardIds : List Str) (limit : Int) (all_cards : List Card)
    (all_characters : List Character) (old : Int)
    (hname : cleanStr name)
    (hchar : ∀ i ∈ charIds, i ≠ [] ∧ cleanStr i)
    (hcard : ∀ i ∈ cardIds, i ≠ [] ∧ cleanStr i) :
    import_from_code
        (encode_deck_code (rawPayload name dt.toInt charIds cardIds limit))
        all_cards all_characters old =
      some ⟨name, dt,
        charIds.filterMap (fun cid => if cid = [] then none
          else all_characters.find? (fun c => c.id == cid)),
        cardIds.filterMap (fun cid => if cid = [] then none
          else all_cards.find? (fun c => c.id == cid)),
        limit⟩ := by
  have hpipe := rawPayload_no_pipe name dt.toInt charIds cardIds limit hname
    (fun i hi => (hchar i hi).2) (fun i hi => (hcard i hi).2)
  have hsplit := splitOnChar_rawPayload name dt.toInt charIds cardIds limit hname
    (fun i hi => (hchar i hi).2) (fun i hi => (hcard i hi).2)
  have hdec := decode_encode_deck_code hpipe
  unfold import_from_code
  rw [hdec]
  simp only [hsplit]
  rw [if_neg (by simp)]
  simp only [List.getD_cons_zero, List.getD_cons_succ]
  rw [pyInt_intToStr]
  simp only []
  rw [deckTypeOfInt_toInt]
  simp only []
  rw [split_join_ids hchar, split_join_ids hcard]
  simp [pyInt_intToStr]

/-- A card whose id is the `;` delimiter itself. -/
def semiCard : Card :=
  { id := [';'], name := [], elements := [.water], cost := 1,
    rarity := .common, description := [] }

/-- A deck containing `semiCard`; its name is delimiter-free. -/
def c1BadDeck : DeckData :=
  { name := ['n'], deck_type := .standard, cards := [semiCard],
    characters := [], max_card_limit := 20 }

set_option maxRecDepth 100000 in
/-- C1 counterexample: a deck whose name is free of `;`, `,`, `|` and whose
single card id occurs in the catalog supplied to the decoder, yet whose card
id is `";"`.  The encoded payload `n;1;;;;20;` splits wrongly, the import
still reports success, and the reconstructed card-id list is `[]` instead of
`[";"]` — the claim's round trip fails because it does not restrict the ids,
only the name. -/
theorem import_round_trip_fails_on_delimiter_id :
    cleanStr c1BadDeck.name ∧
    (∀ c ∈ c1BadDeck.cards, ∃ x ∈ [semiCard], x.id = c.id) ∧
    (∀ c ∈ c1BadDeck.characters, ∃ x ∈ ([] : List Character), x.id = c.id) ∧
    (import_from_code (updateDeckCode c1BadDeck) [semiCard] [] 20).map
        (fun r => r.cards.map Card.id) ≠
      some (c1BadDeck.cards.map Card.id) := by
  refine ⟨by decide, by decide, by decide, by decide⟩

set_option maxRecDepth 100000 in
/-- C1 amended witness: a concrete deck (one catalog character, one catalog
card, clean non-empty ids) round-trips through export and import with every
claimed field reproduced. -/
theorem import_updateDeckCode_witness :
    ∃ r, import_from_code
        (updateDeckCode ⟨"d".toList, .casual, [plainPhysCard], [waterMage], 20⟩)
        [plainPhysCard] [waterMage] 20 = some r ∧
      r.name = "d".toList ∧ r.deck_type = .casual ∧
      r.characters.map (·.id) = ["m1".toList] ∧
      r.cards.map (·.id) = ["pc".toList] ∧
      r.max_card_limit = 20 := by
  obtain ⟨r, h1, h2, h3, h4, h5, h6⟩ := import_updateDeckCode
    ⟨"d".toList, .casual, [plainPhysCard], [waterMage], 20⟩
    [plainPhysCard] [waterMage] 20
    (by decide) (by decide) (by decide) (by decide) (by decide)
  refine ⟨r, h1, h2, h3, ?_, ?_, h6⟩
  · rw [h4]; decide
  · rw [h5]; decide

/-- C9: importing a checksum-valid token whose payload carries a deck-type
ordinal outside `{1, 2}` fails the whole import (`import_from_code` returns
`False`), whereas character or card ids that match nothing in the supplied
catalogs are silently dropped from the reconstructed lists and the import
still succeeds. -/
theorem import_bad_ordinal_fails_unknown_ids_dropped :
    (∀ (data : Str) (all_cards : List Card) (all_characters : List Character)
        (old : Int) (n : Int),
      '|' ∉ data →
      pyInt ((splitOnChar ';' data).getD 1 []) = some n →
      n ≠ 1 → n ≠ 2 →
      import_from_code (encode_deck_code data) all_cards all_characters old =
        none) ∧
    (∀ (name : Str) (dt : DeckType) (charIds cardIds : List Str) (limit : Int)
        (all_cards : List Card) (all_characters : List Character) (old : Int),
      cleanStr name →
      (∀ i ∈ charIds, i ≠ [] ∧ cleanStr i) →
      (∀ i ∈ cardIds, i ≠ [] ∧ cleanStr i) →
      ∃ r, import_from_code
          (encode_deck_code (rawPayload name dt.toInt charIds cardIds limit))
          all_cards all_characters old = some r ∧
        r.characters.map (·.id) =
          charIds.filter (fun i => all_characters.any (fun c => c.id == i)) ∧
        r.cards.map (·.id) =
          cardIds.filter (fun i => all_cards.any (fun c => c.id == i))) := by
  constructor
  · intro data all_cards all_characters old n hpipe hn h1 h2
    unfold import_from_code
    rw [decode_encode_deck_code hpipe]
    simp only []
    by_cases hlen : (splitOnChar ';' data).length < 4
    · rw [if_pos hlen]
    · rw [if_neg hlen]
      rw [hn]
      simp only []
      have hdt : deckTypeOfInt n = none := by
        unfold deckTypeOfInt
        rw [if_neg h1, if_neg h2]
      rw [hdt]
  · intro name dt charIds cardIds limit all_cards all_characters old hname
      hchar hcard
    refine ⟨_, import_rawPayload name dt charIds cardIds limit all_cards
      all_characters old hname hchar hcard, ?_, ?_⟩
    · exact filterMap_find_map_proj_filter Character.id all_characters charIds
        (fun i hi => (hchar i hi).1)
    · exact filterMap_find_map_proj_filter Card.id all_cards cardIds
        (fun i hi => (hcard i hi).1)

set_option maxRecDepth 100000 in
/-- C9 witness: the payload `n;7;;;` (deck-type ordinal 7) fails the import
outright, while a payload whose character list is `m1,zz` against a catalog
containing only `m1` imports successfully with `zz` silently dropped. -/
theorem import_bad_ordinal_fails_unknown_ids_dropped_witness :
    import_from_code (encode_deck_code "n;7;;;".toList) [plainPhysCard]
        [waterMage] 20 = none ∧
    (∃ r, import_from_code
        (encode_deck_code
          (rawPayload "d".toList DeckType.casual.toInt
            ["m1".toList, "zz".toList] ["pc".toList, "qq".toList] 20))
        [plainPhysCard] [waterMage] 20 = some r ∧
      r.characters.map (·.id) = ["m1".toList] ∧
      r.cards.map (·.id) = ["pc".toList]) := by
  obtain ⟨hbad, hdrop⟩ := import_bad_ordinal_fails_unknown_ids_dropped
  constructor
  · exact hbad "n;7;;;".toList [plainPhysCard] [waterMage] 20 7
      (by decide) (by decide) (by decide) (by decide)
  · obtain ⟨r, h1, h2, h3⟩ := hdrop "d".toList .casual
      ["m1".toList, "zz".toList] ["pc".toList, "qq".toList] 20
      [plainPhysCard] [waterMage] 20 (by decide) (by decide) (by decide)
    refine ⟨r, h1, ?_, ?_⟩
    · rw [h2]; decide
    · rw [h3]; decide

end MagicWound
